import Mathlib

set_option autoImplicit false

/-!
Shallow embedding of the ds-algo.ts linear containers (Stack, Queue, Deque)
and the binary-search family, translated from the TypeScript sources.

Conventions of the embedding:
* A JavaScript array backing a container is a `List`; `Array.prototype.push`
  appends at the end, `pop` removes the last element, `shift` removes the
  first, `unshift` prepends.
* A method that can `throw` is modelled as returning `Except (DSError × σ) r`
  where `σ` is the container type: the error case carries the container state
  at the moment of the throw, so that atomicity (state unchanged on error)
  is an actual theorem rather than a modelling artefact.
* JavaScript indexed reads that can yield `undefined` (such as
  `items[items.length - 1]` on an empty array, or the unchecked `pop()!`
  after an emptiness guard) are modelled with `Option`.
* `maxCapacity` is `Option Nat` (the claims restrict attention to
  non-negative integer capacities); `undefined` is `none`.
-/

namespace DsAlgo

/-- The error classes of the shared error taxonomy that the containers throw:
`EmptyStructureError` (carrying the structure name) and `CapacityError`
(carrying a message). -/
inductive DSError where
  | emptyStructure (structureName : String)
  | capacityError (message : String)
deriving DecidableEq, Repr

/-- Model of `Array.prototype.pop`: removes and returns the last element;
on an empty array returns `undefined` (`none`) and leaves the array empty. -/
def arrayPop {α : Type} (l : List α) : Option α × List α :=
  (l.getLast?, l.dropLast)

/-- Model of `Array.prototype.shift`: removes and returns the first element;
on an empty array returns `undefined` (`none`). -/
def arrayShift {α : Type} : List α → Option α × List α
  | [] => (none, [])
  | a :: rest => (some a, rest)

/-- Model of a JavaScript indexed read `arr[i]` with a possibly negative
index: out-of-range access yields `undefined` (`none`). -/
def arrayGet {α : Type} (l : List α) (i : Int) : Option α :=
  if i < 0 then none else l[i.toNat]?

/-- Model of `Array.prototype.filter` with the `(value, index)` callback
signature of `PredicateFn` (the callback receives the element's index). -/
def jsFilterFrom {α : Type} (p : α → Nat → Bool) : List α → Nat → List α
  | [], _ => []
  | a :: rest, i =>
    if p a i then a :: jsFilterFrom p rest (i + 1) else jsFilterFrom p rest (i + 1)

/-- `Array.prototype.filter`, starting at index 0. -/
def jsFilter {α : Type} (p : α → Nat → Bool) (l : List α) : List α :=
  jsFilterFrom p l 0

/-- Model of `Array.prototype.map` with the `(value, index)` callback
signature of `MapperFn`. -/
def jsMapFrom {α β : Type} (m : α → Nat → β) : List α → Nat → List β
  | [], _ => []
  | a :: rest, i => m a i :: jsMapFrom m rest (i + 1)

/-- `Array.prototype.map`, starting at index 0. -/
def jsMap {α β : Type} (m : α → Nat → β) (l : List α) : List β :=
  jsMapFrom m l 0

/-- State of a `Stack<T>`: the private backing array `items` and the
readonly optional `maxCapacity`. -/
structure Stack (α : Type) where
  items : List α
  maxCapacity : Option Nat
deriving DecidableEq, Repr

/-- `Stack.size()`: `this.items.length`. -/
def Stack.size {α : Type} (s : Stack α) : Nat :=
  s.items.length

/-- `Stack.isEmpty()`: `this.items.length === 0`. -/
def Stack.isEmpty {α : Type} (s : Stack α) : Bool :=
  s.items.length == 0

/-- `Stack.isFull()`: `this.maxCapacity !== undefined && this.items.length >= this.maxCapacity`. -/
def Stack.isFull {α : Type} (s : Stack α) : Bool :=
  match s.maxCapacity with
  | none => false
  | some c => decide (c ≤ s.items.length)

/-- `Stack.push(element)`: throws `CapacityError` when full, else appends. -/
def Stack.push {α : Type} (s : Stack α) (element : α) :
    Except (DSError × Stack α) (Stack α) :=
  if s.isFull then
    .error (.capacityError "Stack has reached maximum capacity", s)
  else
    .ok { s with items := s.items ++ [element] }

/-- `Stack.pop()`: throws `EmptyStructureError` when empty, else
`this.items.pop()!` (the non-null assertion is erased at runtime, hence the
`Option` in the returned value). -/
def Stack.pop {α : Type} (s : Stack α) :
    Except (DSError × Stack α) (Option α × Stack α) :=
  if s.isEmpty then
    .error (.emptyStructure "Stack", s)
  else
    let r := arrayPop s.items
    .ok (r.1, { s with items := r.2 })

/-- `Stack.peek()`: throws when empty, else reads `items[items.length - 1]`. -/
def Stack.peek {α : Type} (s : Stack α) :
    Except (DSError × Stack α) (Option α) :=
  if s.isEmpty then
    .error (.emptyStructure "Stack", s)
  else
    .ok (arrayGet s.items ((s.items.length : Int) - 1))

/-- `Stack.peekSafe()`: `this.items[this.items.length - 1]` with no guard. -/
def Stack.peekSafe {α : Type} (s : Stack α) : Option α :=
  arrayGet s.items ((s.items.length : Int) - 1)

/-- `Stack.popSafe()`: `this.items.pop()` with no guard. -/
def Stack.popSafe {α : Type} (s : Stack α) : Option α × Stack α :=
  let r := arrayPop s.items
  (r.1, { s with items := r.2 })

/-- `Stack.clear()`: `this.items.length = 0`. -/
def Stack.clear {α : Type} (s : Stack α) : Stack α :=
  { s with items := [] }

/-- `Stack.toArray()`: `[...this.items].reverse()` (top first). -/
def Stack.toArray {α : Type} (s : Stack α) : List α :=
  s.items.reverse

/-- `Stack.toArrayBottomUp()`: `[...this.items]` (insertion order). -/
def Stack.toArrayBottomUp {α : Type} (s : Stack α) : List α :=
  s.items

/-- The `StackOptions<T>` record (initialCapacity only pre-sizes the backing
array, whose length is immediately reset to 0, so it carries no semantics). -/
structure StackOptions (α : Type) where
  initialCapacity : Option Nat := none
  maxCapacity : Option Nat := none
  initialElements : Option (List α) := none

/-- The constructor loop `for (const element of initialElements) this.push(element)`:
pushes each element through the capacity-checked `push` path, propagating the
first throw (carrying the partially built state). -/
def Stack.pushAll {α : Type} (s : Stack α) : List α → Except (DSError × Stack α) (Stack α)
  | [] => .ok s
  | e :: rest =>
    match s.push e with
    | .ok s' => Stack.pushAll s' rest
    | .error err => .error err

/-- `new Stack(options)`. -/
def Stack.new {α : Type} (options : StackOptions α) :
    Except (DSError × Stack α) (Stack α) :=
  let s : Stack α := { items := [], maxCapacity := options.maxCapacity }
  match options.initialElements with
  | none => .ok s
  | some elems => Stack.pushAll s elems

/-- `Stack.filter(predicate)`: filters the backing array, then constructs a
new stack from the filtered elements with the same `maxCapacity`. -/
def Stack.filter {α : Type} (s : Stack α) (predicate : α → Nat → Bool) :
    Except (DSError × Stack α) (Stack α) :=
  let filtered := jsFilter predicate s.items
  Stack.new { initialElements := some filtered, maxCapacity := s.maxCapacity }

/-- `Stack.map(mapper)`: maps the backing array, then constructs a new stack
from the mapped elements with the same `maxCapacity`. -/
def Stack.map {α β : Type} (s : Stack α) (mapper : α → Nat → β) :
    Except (DSError × Stack β) (Stack β) :=
  let mapped := jsMap mapper s.items
  Stack.new { initialElements := some mapped, maxCapacity := s.maxCapacity }

/-- `Stack.clone()`: a new stack built from `this.items` with the same
`maxCapacity`. -/
def Stack.clone {α : Type} (s : Stack α) : Except (DSError × Stack α) (Stack α) :=
  Stack.new { initialElements := some s.items, maxCapacity := s.maxCapacity }

/-- The public mutating/observing operations of `Stack` used to state the
capacity invariant over arbitrary call sequences. -/
inductive StackOp (α : Type) where
  | push (v : α)
  | pop
  | peek
  | popSafe
  | peekSafe
  | clear

/-- The container state after one public call (for a throwing call, the state
carried by the error, i.e. the state at the moment of the throw). -/
def Stack.applyOp {α : Type} (s : Stack α) : StackOp α → Stack α
  | .push v =>
    match s.push v with
    | .ok s' => s'
    | .error e => e.2
  | .pop =>
    match s.pop with
    | .ok r => r.2
    | .error e => e.2
  | .peek =>
    match s.peek with
    | .ok _ => s
    | .error e => e.2
  | .popSafe => (s.popSafe).2
  | .peekSafe => s
  | .clear => s.clear

/-- The state after a sequence of public calls. -/
def Stack.applyOps {α : Type} (s : Stack α) (ops : List (StackOp α)) : Stack α :=
  ops.foldl Stack.applyOp s

/-- `n` successive `pop()` calls, collecting the returned values in call
order; stops if a call throws or returns no value. -/
def Stack.drain {α : Type} (s : Stack α) : Nat → List α × Stack α
  | 0 => ([], s)
  | n + 1 =>
    match s.pop with
    | .ok (some v, s') =>
      let r := Stack.drain s' n
      (v :: r.1, r.2)
    | .ok (none, s') => ([], s')
    | .error e => ([], e.2)

/-- State of a `Queue<T>`: the private backing array `items` (front at index
0, rear at the end) and the readonly optional `maxCapacity`. -/
structure Queue (α : Type) where
  items : List α
  maxCapacity : Option Nat
deriving DecidableEq, Repr

/-- `Queue.size()`. -/
def Queue.size {α : Type} (q : Queue α) : Nat :=
  q.items.length

/-- `Queue.isEmpty()`. -/
def Queue.isEmpty {α : Type} (q : Queue α) : Bool :=
  q.items.length == 0

/-- `Queue.isFull()`. -/
def Queue.isFull {α : Type} (q : Queue α) : Bool :=
  match q.maxCapacity with
  | none => false
  | some c => decide (c ≤ q.items.length)

/-- `Queue.enqueue(element)`: throws `CapacityError` when full, else appends
at the rear. -/
def Queue.enqueue {α : Type} (q : Queue α) (element : α) :
    Except (DSError × Queue α) (Queue α) :=
  if q.isFull then
    .error (.capacityError "Queue has reached maximum capacity", q)
  else
    .ok { q with items := q.items ++ [element] }

/-- `Queue.dequeue()`: throws `EmptyStructureError` when empty, else
`this.items.shift()!`. -/
def Queue.dequeue {α : Type} (q : Queue α) :
    Except (DSError × Queue α) (Option α × Queue α) :=
  if q.isEmpty then
    .error (.emptyStructure "Queue", q)
  else
    let r := arrayShift q.items
    .ok (r.1, { q with items := r.2 })

/-- `Queue.peekFront()`: throws when empty, else reads `items[0]`. -/
def Queue.peekFront {α : Type} (q : Queue α) :
    Except (DSError × Queue α) (Option α) :=
  if q.isEmpty then
    .error (.emptyStructure "Queue", q)
  else
    .ok (arrayGet q.items 0)

/-- `Queue.peekRear()`: throws when empty, else reads `items[items.length - 1]`. -/
def Queue.peekRear {α : Type} (q : Queue α) :
    Except (DSError × Queue α) (Option α) :=
  if q.isEmpty then
    .error (.emptyStructure "Queue", q)
  else
    .ok (arrayGet q.items ((q.items.length : Int) - 1))

/-- `Queue.peekFrontSafe()`: `this.items[0]` with no guard. -/
def Queue.peekFrontSafe {α : Type} (q : Queue α) : Option α :=
  arrayGet q.items 0

/-- `Queue.peekRearSafe()`: `this.items[this.items.length - 1]` with no guard. -/
def Queue.peekRearSafe {α : Type} (q : Queue α) : Option α :=
  arrayGet q.items ((q.items.length : Int) - 1)

/-- `Queue.dequeueSafe()`: `this.items.shift()` with no guard. -/
def Queue.dequeueSafe {α : Type} (q : Queue α) : Option α × Queue α :=
  let r := arrayShift q.items
  (r.1, { q with items := r.2 })

/-- `Queue.clear()`. -/
def Queue.clear {α : Type} (q : Queue α) : Queue α :=
  { q with items := [] }

/-- `Queue.toArray()`: `[...this.items]` (front first). -/
def Queue.toArray {α : Type} (q : Queue α) : List α :=
  q.items

/-- The `QueueOptions<T>` record. -/
structure QueueOptions (α : Type) where
  initialCapacity : Option Nat := none
  maxCapacity : Option Nat := none
  initialElements : Option (List α) := none

/-- The constructor loop enqueuing each initial element through the
capacity-checked `enqueue` path. -/
def Queue.enqueueAll {α : Type} (q : Queue α) : List α → Except (DSError × Queue α) (Queue α)
  | [] => .ok q
  | e :: rest =>
    match q.enqueue e with
    | .ok q' => Queue.enqueueAll q' rest
    | .error err => .error err

/-- `new Queue(options)`. -/
def Queue.new {α : Type} (options : QueueOptions α) :
    Except (DSError × Queue α) (Queue α) :=
  let q : Queue α := { items := [], maxCapacity := options.maxCapacity }
  match options.initialElements with
  | none => .ok q
  | some elems => Queue.enqueueAll q elems

/-- `Queue.filter(predicate)`. -/
def Queue.filter {α : Type} (q : Queue α) (predicate : α → Nat → Bool) :
    Except (DSError × Queue α) (Queue α) :=
  let filtered := jsFilter predicate q.items
  Queue.new { initialElements := some filtered, maxCapacity := q.maxCapacity }

/-- `Queue.map(mapper)`. -/
def Queue.map {α β : Type} (q : Queue α) (mapper : α → Nat → β) :
    Except (DSError × Queue β) (Queue β) :=
  let mapped := jsMap mapper q.items
  Queue.new { initialElements := some mapped, maxCapacity := q.maxCapacity }

/-- `Queue.clone()`. -/
def Queue.clone {α : Type} (q : Queue α) : Except (DSError × Queue α) (Queue α) :=
  Queue.new { initialElements := some q.items, maxCapacity := q.maxCapacity }

/-- The public operations of `Queue` used to state the capacity invariant. -/
inductive QueueOp (α : Type) where
  | enqueue (v : α)
  | dequeue
  | peekFront
  | peekRear
  | dequeueSafe
  | peekFrontSafe
  | peekRearSafe
  | clear

/-- The container state after one public call. -/
def Queue.applyOp {α : Type} (q : Queue α) : QueueOp α → Queue α
  | .enqueue v =>
    match q.enqueue v with
    | .ok q' => q'
    | .error e => e.2
  | .dequeue =>
    match q.dequeue with
    | .ok r => r.2
    | .error e => e.2
  | .peekFront =>
    match q.peekFront with
    | .ok _ => q
    | .error e => e.2
  | .peekRear =>
    match q.peekRear with
    | .ok _ => q
    | .error e => e.2
  | .dequeueSafe => (q.dequeueSafe).2
  | .peekFrontSafe => q
  | .peekRearSafe => q
  | .clear => q.clear

/-- The state after a sequence of public calls. -/
def Queue.applyOps {α : Type} (q : Queue α) (ops : List (QueueOp α)) : Queue α :=
  ops.foldl Queue.applyOp q

/-- `n` successive `dequeue()` calls, collecting the returned values in call
order; stops if a call throws or returns no value. -/
def Queue.drain {α : Type} (q : Queue α) : Nat → List α × Queue α
  | 0 => ([], q)
  | n + 1 =>
    match q.dequeue with
    | .ok (some v, q') =>
      let r := Queue.drain q' n
      (v :: r.1, r.2)
    | .ok (none, q') => ([], q')
    | .error e => ([], e.2)

/-- State of a `Deque<T>`: the private backing array `items` (front at index
0, rear at the end) and the readonly optional `maxCapacity`. -/
structure Deque (α : Type) where
  items : List α
  maxCapacity : Option Nat
deriving DecidableEq, Repr

/-- `Deque.size()`. -/
def Deque.size {α : Type} (d : Deque α) : Nat :=
  d.items.length

/-- `Deque.isEmpty()`. -/
def Deque.isEmpty {α : Type} (d : Deque α) : Bool :=
  d.items.length == 0

/-- `Deque.isFull()`. -/
def Deque.isFull {α : Type} (d : Deque α) : Bool :=
  match d.maxCapacity with
  | none => false
  | some c => decide (c ≤ d.items.length)

/-- `Deque.addFront(element)`: throws `CapacityError` when full, else
`this.items.unshift(element)`. -/
def Deque.addFront {α : Type} (d : Deque α) (element : α) :
    Except (DSError × Deque α) (Deque α) :=
  if d.isFull then
    .error (.capacityError "Deque has reached maximum capacity", d)
  else
    .ok { d with items := element :: d.items }

/-- `Deque.addRear(element)`: throws `CapacityError` when full, else
`this.items.push(element)`. -/
def Deque.addRear {α : Type} (d : Deque α) (element : α) :
    Except (DSError × Deque α) (Deque α) :=
  if d.isFull then
    .error (.capacityError "Deque has reached maximum capacity", d)
  else
    .ok { d with items := d.items ++ [element] }

/-- `Deque.removeFront()`: throws `EmptyStructureError` when empty, else
`this.items.shift()!`. -/
def Deque.removeFront {α : Type} (d : Deque α) :
    Except (DSError × Deque α) (Option α × Deque α) :=
  if d.isEmpty then
    .error (.emptyStructure "Deque", d)
  else
    let r := arrayShift d.items
    .ok (r.1, { d with items := r.2 })

/-- `Deque.removeRear()`: throws `EmptyStructureError` when empty, else
`this.items.pop()!`. -/
def Deque.removeRear {α : Type} (d : Deque α) :
    Except (DSError × Deque α) (Option α × Deque α) :=
  if d.isEmpty then
    .error (.emptyStructure "Deque", d)
  else
    let r := arrayPop d.items
    .ok (r.1, { d with items := r.2 })

/-- `Deque.peekFront()`: throws when empty, else reads `items[0]`. -/
def Deque.peekFront {α : Type} (d : Deque α) :
    Except (DSError × Deque α) (Option α) :=
  if d.isEmpty then
    .error (.emptyStructure "Deque", d)
  else
    .ok (arrayGet d.items 0)

/-- `Deque.peekRear()`: throws when empty, else reads `items[items.length - 1]`. -/
def Deque.peekRear {α : Type} (d : Deque α) :
    Except (DSError × Deque α) (Option α) :=
  if d.isEmpty then
    .error (.emptyStructure "Deque", d)
  else
    .ok (arrayGet d.items ((d.items.length : Int) - 1))

/-- `Deque.peekFrontSafe()`: `this.items[0]` with no guard. -/
def Deque.peekFrontSafe {α : Type} (d : Deque α) : Option α :=
  arrayGet d.items 0

/-- `Deque.peekRearSafe()`: `this.items[this.items.length - 1]` with no guard. -/
def Deque.peekRearSafe {α : Type} (d : Deque α) : Option α :=
  arrayGet d.items ((d.items.length : Int) - 1)

/-- `Deque.removeFrontSafe()`: `this.items.shift()` with no guard. -/
def Deque.removeFrontSafe {α : Type} (d : Deque α) : Option α × Deque α :=
  let r := arrayShift d.items
  (r.1, { d with items := r.2 })

/-- `Deque.removeRearSafe()`: `this.items.pop()` with no guard. -/
def Deque.removeRearSafe {α : Type} (d : Deque α) : Option α × Deque α :=
  let r := arrayPop d.items
  (r.1, { d with items := r.2 })

/-- `Deque.clear()`. -/
def Deque.clear {α : Type} (d : Deque α) : Deque α :=
  { d with items := [] }

/-- `Deque.toArray()`: `[...this.items]` (front first). -/
def Deque.toArray {α : Type} (d : Deque α) : List α :=
  d.items

/-- `Deque.reverse()`: in-place `this.items.reverse()`. -/
def Deque.reverse {α : Type} (d : Deque α) : Deque α :=
  { d with items := d.items.reverse }

/-- The `DequeOptions<T>` record. -/
structure DequeOptions (α : Type) where
  initialCapacity : Option Nat := none
  maxCapacity : Option Nat := none
  initialElements : Option (List α) := none

/-- The constructor loop adding each initial element at the rear through the
capacity-checked `addRear` path. -/
def Deque.addRearAll {α : Type} (d : Deque α) : List α → Except (DSError × Deque α) (Deque α)
  | [] => .ok d
  | e :: rest =>
    match d.addRear e with
    | .ok d' => Deque.addRearAll d' rest
    | .error err => .error err

/-- `new Deque(options)`. -/
def Deque.new {α : Type} (options : DequeOptions α) :
    Except (DSError × Deque α) (Deque α) :=
  let d : Deque α := { items := [], maxCapacity := options.maxCapacity }
  match options.initialElements with
  | none => .ok d
  | some elems => Deque.addRearAll d elems

/-- `Deque.filter(predicate)`. -/
def Deque.filter {α : Type} (d : Deque α) (predicate : α → Nat → Bool) :
    Except (DSError × Deque α) (Deque α) :=
  let filtered := jsFilter predicate d.items
  Deque.new { initialElements := some filtered, maxCapacity := d.maxCapacity }

/-- `Deque.map(mapper)`. -/
def Deque.map {α β : Type} (d : Deque α) (mapper : α → Nat → β) :
    Except (DSError × Deque β) (Deque β) :=
  let mapped := jsMap mapper d.items
  Deque.new { initialElements := some mapped, maxCapacity := d.maxCapacity }

/-- `Deque.clone()`. -/
def Deque.clone {α : Type} (d : Deque α) : Except (DSError × Deque α) (Deque α) :=
  Deque.new { initialElements := some d.items, maxCapacity := d.maxCapacity }

/-- `Deque.reversed()`: a new deque built from `[...this.items].reverse()`
with the same `maxCapacity`. -/
def Deque.reversed {α : Type} (d : Deque α) : Except (DSError × Deque α) (Deque α) :=
  Deque.new { initialElements := some d.items.reverse, maxCapacity := d.maxCapacity }

/-- The public operations of `Deque` used to state the capacity invariant. -/
inductive DequeOp (α : Type) where
  | addFront (v : α)
  | addRear (v : α)
  | removeFront
  | removeRear
  | peekFront
  | peekRear
  | removeFrontSafe
  | removeRearSafe
  | peekFrontSafe
  | peekRearSafe
  | clear
  | reverse

/-- The container state after one public call. -/
def Deque.applyOp {α : Type} (d : Deque α) : DequeOp α → Deque α
  | .addFront v =>
    match d.addFront v with
    | .ok d' => d'
    | .error e => e.2
  | .addRear v =>
    match d.addRear v with
    | .ok d' => d'
    | .error e => e.2
  | .removeFront =>
    match d.removeFront with
    | .ok r => r.2
    | .error e => e.2
  | .removeRear =>
    match d.removeRear with
    | .ok r => r.2
    | .error e => e.2
  | .peekFront =>
    match d.peekFront with
    | .ok _ => d
    | .error e => e.2
  | .peekRear =>
    match d.peekRear with
    | .ok _ => d
    | .error e => e.2
  | .removeFrontSafe => (d.removeFrontSafe).2
  | .removeRearSafe => (d.removeRearSafe).2
  | .peekFrontSafe => d
  | .peekRearSafe => d
  | .clear => d.clear
  | .reverse => d.reverse

/-- The state after a sequence of public calls. -/
def Deque.applyOps {α : Type} (d : Deque α) (ops : List (DequeOp α)) : Deque α :=
  ops.foldl Deque.applyOp d

/-- `n` successive `removeRear()` calls, collecting the returned values. -/
def Deque.drainRear {α : Type} (d : Deque α) : Nat → List α × Deque α
  | 0 => ([], d)
  | n + 1 =>
    match d.removeRear with
    | .ok (some v, d') =>
      let r := Deque.drainRear d' n
      (v :: r.1, r.2)
    | .ok (none, d') => ([], d')
    | .error e => ([], e.2)

/-- `n` successive `removeFront()` calls, collecting the returned values. -/
def Deque.drainFront {α : Type} (d : Deque α) : Nat → List α × Deque α
  | 0 => ([], d)
  | n + 1 =>
    match d.removeFront with
    | .ok (some v, d') =>
      let r := Deque.drainFront d' n
      (v :: r.1, r.2)
    | .ok (none, d') => ([], d')
    | .error e => ([], e.2)

/-- `defaultComparator` of the shared package, at type `Int`:
`a < b ? -1 : a > b ? 1 : 0`. -/
def defaultComparator (a b : Int) : Int :=
  if a < b then -1 else if a > b then 1 else 0

/-- The `BinarySearchResult` record. `index` and `insertionPoint` are
JavaScript numbers that can hold `-1`, hence `Int`. -/
structure BinarySearchResult where
  index : Int
  found : Bool
  comparisons : Nat
  insertionPoint : Int
deriving DecidableEq, Repr

/-- The `while (left <= right)` loop of `binarySearchDetailed`.
Indices are `Int` because `right` starts at `toIndex - 1`, which is `-1` on
an empty range. `none` models an out-of-range array access (the source would
read `undefined` and feed it to the comparator). -/
def binarySearchDetailedLoop {α : Type} (compareFn : α → α → Int) (array : List α)
    (target : α) (left right : Int) (comparisons : Nat) : Option BinarySearchResult :=
  if left ≤ right then
    let mid := left + (right - left) / 2
    match arrayGet array mid with
    | none => none
    | some x =>
      let comparison := compareFn x target
      if comparison = 0 then
        some { index := mid, found := true, comparisons := comparisons + 1, insertionPoint := mid }
      else if comparison < 0 then
        binarySearchDetailedLoop compareFn array target (mid + 1) right (comparisons + 1)
      else
        binarySearchDetailedLoop compareFn array target left (mid - 1) (comparisons + 1)
  else
    some { index := -1, found := false, comparisons := comparisons, insertionPoint := left }
termination_by (right - left + 1).toNat
decreasing_by
  all_goals omega

/-- `binarySearchDetailed(array, target, options)` with the comparator and
range explicit (the source defaults are `compareFn = defaultComparator`,
`fromIndex = 0`, `toIndex = array.length`). -/
def binarySearchDetailed {α : Type} (compareFn : α → α → Int) (array : List α)
    (target : α) (fromIndex toIndex : Int) : Option BinarySearchResult :=
  binarySearchDetailedLoop compareFn array target fromIndex (toIndex - 1) 0

/-- `binarySearch(array, target, options)`:
`result.found ? result.index : -1`. -/
def binarySearch {α : Type} (compareFn : α → α → Int) (array : List α)
    (target : α) (fromIndex toIndex : Int) : Option Int :=
  match binarySearchDetailed compareFn array target fromIndex toIndex with
  | none => none
  | some result => some (if result.found then result.index else -1)

/-- The `while (left < right)` loop of `lowerBound`. With the defaults both
bounds are natural numbers and never go below 0, so `Nat` indices are
faithful here. -/
def lowerBoundLoop {α : Type} (compareFn : α → α → Int) (array : List α)
    (target : α) (left right : Nat) : Option Nat :=
  if left < right then
    let mid := left + (right - left) / 2
    match array[mid]? with
    | none => none
    | some x =>
      if compareFn x target < 0 then
        lowerBoundLoop compareFn array target (mid + 1) right
      else
        lowerBoundLoop compareFn array target left mid
  else
    some left
termination_by right - left
decreasing_by
  all_goals omega

/-- `lowerBound(array, target, options)` with the comparator and range
explicit (the source defaults are `fromIndex = 0`, `toIndex = array.length`). -/
def lowerBound {α : Type} (compareFn : α → α → Int) (array : List α)
    (target : α) (fromIndex toIndex : Nat) : Option Nat :=
  lowerBoundLoop compareFn array target fromIndex toIndex

/-- The `while (left < right)` loop of `upperBound`: identical to
`lowerBound` except the branch condition is `compareFn(array[mid], target) <= 0`. -/
def upperBoundLoop {α : Type} (compareFn : α → α → Int) (array : List α)
    (target : α) (left right : Nat) : Option Nat :=
  if left < right then
    let mid := left + (right - left) / 2
    match array[mid]? with
    | none => none
    | some x =>
      if compareFn x target ≤ 0 then
        upperBoundLoop compareFn array target (mid + 1) right
      else
        upperBoundLoop compareFn array target left mid
  else
    some left
termination_by right - left
decreasing_by
  all_goals omega

/-- `upperBound(array, target, options)`. -/
def upperBound {α : Type} (compareFn : α → α → Int) (array : List α)
    (target : α) (fromIndex toIndex : Nat) : Option Nat :=
  upperBoundLoop compareFn array target fromIndex toIndex

/-- `n` fits the optional capacity bound: trivially true when the bound is
absent, `n ≤ c` when the bound is `some c`. -/
def withinCap : Option Nat → Nat → Prop
  | none, _ => True
  | some c, n => n ≤ c

/-- The container state a `Stack` call ends in, whether it returns or throws. -/
def Stack.stateOf {α : Type} : Except (DSError × Stack α) (Stack α) → Stack α
  | .ok s => s
  | .error e => e.2

/-- The container state a `Queue` call ends in, whether it returns or throws. -/
def Queue.stateOf {α : Type} : Except (DSError × Queue α) (Queue α) → Queue α
  | .ok q => q
  | .error e => e.2

/-- The container state a `Deque` call ends in, whether it returns or throws. -/
def Deque.stateOf {α : Type} : Except (DSError × Deque α) (Deque α) → Deque α
  | .ok d => d
  | .error e => e.2

theorem arrayPop_concat {α : Type} (l : List α) (v : α) :
    arrayPop (l ++ [v]) = (some v, l) := by
  simp [arrayPop]

theorem Stack.isFull_false_iff {α : Type} (s : Stack α) :
    s.isFull = false ↔ ∀ c, s.maxCapacity = some c → s.items.length < c := by
  unfold Stack.isFull
  cases s.maxCapacity <;> simp

theorem Stack.push_eq_ok {α : Type} {s s1 : Stack α} {e : α}
    (h : s.push e = .ok s1) :
    s1 = ⟨s.items ++ [e], s.maxCapacity⟩ ∧ s.isFull = false := by
  unfold Stack.push at h
  split at h
  · simp at h
  · next hfull => exact ⟨by cases h; rfl, by simpa using hfull⟩

theorem Stack.push_not_full {α : Type} {s : Stack α} (h : s.isFull = false) (e : α) :
    s.push e = .ok ⟨s.items ++ [e], s.maxCapacity⟩ := by
  simp [Stack.push, h]

theorem Stack.pushAll_ok_items {α : Type} :
    ∀ (vs : List α) (s s' : Stack α),
      Stack.pushAll s vs = .ok s' → s' = ⟨s.items ++ vs, s.maxCapacity⟩ := by
  intro vs
  induction vs with
  | nil =>
    intro s s' h
    simp only [Stack.pushAll] at h
    cases h
    simp
  | cons e rest ih =>
    intro s s' h
    simp only [Stack.pushAll] at h
    cases hp : s.push e with
    | ok s1 =>
      rw [hp] at h
      obtain ⟨h1, -⟩ := Stack.push_eq_ok hp
      have := ih s1 s' h
      subst h1 this
      simp
    | error err =>
      rw [hp] at h
      simp at h

theorem Stack.pushAll_ok_of_cap {α : Type} :
    ∀ (vs : List α) (s : Stack α),
      withinCap s.maxCapacity (s.items.length + vs.length) →
      Stack.pushAll s vs = .ok ⟨s.items ++ vs, s.maxCapacity⟩ := by
  intro vs
  induction vs with
  | nil =>
    intro s _
    simp only [Stack.pushAll, List.append_nil]
  | cons e rest ih =>
    intro s h
    have hfull : s.isFull = false := by
      rw [Stack.isFull_false_iff]
      intro c hc
      rw [hc] at h
      simp only [withinCap, List.length_cons] at h
      omega
    have hpush := Stack.push_not_full hfull e
    simp only [Stack.pushAll, hpush]
    have hcap : withinCap s.maxCapacity (s.items.length + 1 + rest.length) := by
      cases hc : s.maxCapacity with
      | none => simp [withinCap]
      | some c =>
        rw [hc] at h
        simp only [withinCap] at h ⊢
        simp at h
        omega
    have := ih ⟨s.items ++ [e], s.maxCapacity⟩ (by simpa using hcap)
    rw [this]
    simp

theorem Stack.pop_concat {α : Type} (l : List α) (v : α) (cap : Option Nat) :
    Stack.pop ⟨l ++ [v], cap⟩ = .ok (some v, ⟨l, cap⟩) := by
  simp [Stack.pop, Stack.isEmpty, arrayPop]

theorem Stack.drain_concat {α : Type} :
    ∀ (vs base : List α) (cap : Option Nat),
      Stack.drain ⟨base ++ vs, cap⟩ vs.length = (vs.reverse, ⟨base, cap⟩) := by
  intro vs
  induction vs using List.reverseRecOn with
  | nil =>
    intro base cap
    simp [Stack.drain]
  | append_singleton ys y ih =>
    intro base cap
    have hlen : (ys ++ [y]).length = ys.length + 1 := by simp
    rw [hlen, ← List.append_assoc]
    simp only [Stack.drain, Stack.pop_concat (base ++ ys) y cap]
    rw [ih base cap]
    simp

/-- Claim C2 (LIFO law): pushing `v1..vN` onto any stack with no intervening
pops (and no CapacityExceeded, expressed by `pushAll` succeeding) makes the
next `N` `pop()` calls return `vN, ..., v1` — the pushed values in reverse
push order — and restores the stack to its prior state; in particular the
first `pop()` after the last push returns the last pushed value. -/
theorem claim2_stack_lifo {α : Type} (s : Stack α) (vs : List α) (s' : Stack α)
    (h : Stack.pushAll s vs = .ok s') :
    Stack.drain s' vs.length = (vs.reverse, s) := by
  have hs' := Stack.pushAll_ok_items vs s s' h
  subst hs'
  exact Stack.drain_concat vs s.items s.maxCapacity

/-- Witness for C2 at a concrete input: pushing 1, 2, 3 on an empty unbounded
stack and popping three times yields 3, 2, 1. -/
theorem claim2_stack_lifo_witness :
    Stack.pushAll (Stack.mk ([] : List Nat) none) [1, 2, 3] = .ok (Stack.mk [1, 2, 3] none) ∧
    Stack.drain (Stack.mk [1, 2, 3] (none : Option Nat)) 3 = ([3, 2, 1], Stack.mk [] none) :=
  ⟨by rfl, claim2_stack_lifo (Stack.mk [] none) [1, 2, 3] (Stack.mk [1, 2, 3] none) (by rfl)⟩

theorem Queue.enqueue_eq_ok {α : Type} {q q1 : Queue α} {e : α}
    (h : q.enqueue e = .ok q1) :
    q1 = ⟨q.items ++ [e], q.maxCapacity⟩ ∧ q.isFull = false := by
  unfold Queue.enqueue at h
  split at h
  · simp at h
  · next hfull => exact ⟨by cases h; rfl, by simpa using hfull⟩

theorem Queue.enqueueAll_ok_items {α : Type} :
    ∀ (vs : List α) (q q' : Queue α),
      Queue.enqueueAll q vs = .ok q' → q' = ⟨q.items ++ vs, q.maxCapacity⟩ := by
  intro vs
  induction vs with
  | nil =>
    intro q q' h
    simp only [Queue.enqueueAll] at h
    cases h
    simp
  | cons e rest ih =>
    intro q q' h
    simp only [Queue.enqueueAll] at h
    cases hp : q.enqueue e with
    | ok q1 =>
      rw [hp] at h
      obtain ⟨h1, -⟩ := Queue.enqueue_eq_ok hp
      have := ih q1 q' h
      subst h1 this
      simp
    | error err =>
      rw [hp] at h
      simp at h

theorem Queue.dequeue_cons {α : Type} (v : α) (rest : List α) (cap : Option Nat) :
    Queue.dequeue ⟨v :: rest, cap⟩ = .ok (some v, ⟨rest, cap⟩) := by
  simp [Queue.dequeue, Queue.isEmpty, arrayShift]

theorem Queue.drain_all {α : Type} :
    ∀ (l : List α) (cap : Option Nat),
      Queue.drain ⟨l, cap⟩ l.length = (l, ⟨[], cap⟩) := by
  intro l
  induction l with
  | nil =>
    intro cap
    simp [Queue.drain]
  | cons v rest ih =>
    intro cap
    simp only [List.length_cons, Queue.drain, Queue.dequeue_cons]
    rw [ih cap]

/-- Claim C3 (FIFO law): enqueuing `v1..vN` on any queue with no intervening
dequeues (and no CapacityExceeded, expressed by `enqueueAll` succeeding)
makes subsequent `dequeue()` calls return all elements in front-to-rear
order — the queue's prior contents followed by `v1, ..., vN` in exactly
enqueue order; for a queue that starts empty they return `v1, ..., vN`. -/
theorem claim3_queue_fifo {α : Type} (q : Queue α) (vs : List α) (q' : Queue α)
    (h : Queue.enqueueAll q vs = .ok q') :
    Queue.drain q' (q.items.length + vs.length) = (q.items ++ vs, ⟨[], q.maxCapacity⟩) := by
  have hq' := Queue.enqueueAll_ok_items vs q q' h
  subst hq'
  rw [← List.length_append]
  exact Queue.drain_all (q.items ++ vs) q.maxCapacity

/-- Witness for C3 at a concrete input: enqueuing 1, 2, 3 on an empty
unbounded queue and dequeuing three times yields 1, 2, 3. -/
theorem claim3_queue_fifo_witness :
    Queue.enqueueAll (Queue.mk ([] : List Nat) none) [1, 2, 3] = .ok (Queue.mk [1, 2, 3] none) ∧
    Queue.drain (Queue.mk [1, 2, 3] (none : Option Nat)) 3 = ([1, 2, 3], Queue.mk [] none) :=
  ⟨by rfl, claim3_queue_fifo (Queue.mk [] none) [1, 2, 3] (Queue.mk [1, 2, 3] none) (by rfl)⟩

theorem withinCap_mono {cap : Option Nat} {m n : Nat}
    (h : withinCap cap n) (hmn : m ≤ n) : withinCap cap m := by
  cases cap <;> simp [withinCap] at h ⊢ <;> omega

theorem Stack.push_eq_error {α : Type} {s : Stack α} {v : α}
    {err : DSError × Stack α} (h : s.push v = .error err) :
    err = (.capacityError "Stack has reached maximum capacity", s) ∧ s.isFull = true := by
  unfold Stack.push at h
  split at h
  · next hfull => exact ⟨by cases h; rfl, hfull⟩
  · simp at h

theorem Stack.applyOp_withinCap {α : Type} (s : Stack α) (op : StackOp α)
    (h : withinCap s.maxCapacity s.items.length) :
    (Stack.applyOp s op).maxCapacity = s.maxCapacity ∧
      withinCap s.maxCapacity (Stack.applyOp s op).items.length := by
  cases op with
  | push v =>
    simp only [Stack.applyOp]
    cases hf : s.push v with
    | ok s1 =>
      obtain ⟨h1, h2⟩ := Stack.push_eq_ok hf
      subst h1
      rw [Stack.isFull_false_iff] at h2
      refine ⟨rfl, ?_⟩
      cases hc : s.maxCapacity with
      | none => simp [withinCap]
      | some c =>
        have := h2 c hc
        simp only [withinCap, List.length_append, List.length_cons, List.length_nil]
        omega
    | error e =>
      obtain ⟨he, -⟩ := Stack.push_eq_error hf
      subst he
      exact ⟨rfl, h⟩
  | pop =>
    simp only [Stack.applyOp]
    cases hf : s.pop with
    | ok r =>
      unfold Stack.pop at hf
      split at hf
      · simp at hf
      · cases hf
        exact ⟨rfl, withinCap_mono h (by simp [arrayPop, List.length_dropLast])⟩
    | error e =>
      unfold Stack.pop at hf
      split at hf
      · cases hf
        exact ⟨rfl, h⟩
      · simp at hf
  | peek =>
    simp only [Stack.applyOp]
    cases hf : s.peek with
    | ok r => exact ⟨rfl, h⟩
    | error e =>
      unfold Stack.peek at hf
      split at hf
      · cases hf
        exact ⟨rfl, h⟩
      · simp at hf
  | popSafe =>
    simp only [Stack.applyOp, Stack.popSafe]
    exact ⟨trivial, withinCap_mono h (by simp [arrayPop, List.length_dropLast])⟩
  | peekSafe => exact ⟨rfl, h⟩
  | clear =>
    simp only [Stack.applyOp, Stack.clear]
    exact ⟨trivial, withinCap_mono h (Nat.zero_le _)⟩

theorem Stack.applyOps_withinCap {α : Type} :
    ∀ (ops : List (StackOp α)) (s : Stack α),
      withinCap s.maxCapacity s.items.length →
      (Stack.applyOps s ops).maxCapacity = s.maxCapacity ∧
        withinCap s.maxCapacity (Stack.applyOps s ops).items.length := by
  intro ops
  induction ops with
  | nil => intro s h; exact ⟨rfl, h⟩
  | cons op rest ih =>
    intro s h
    obtain ⟨h1, h2⟩ := Stack.applyOp_withinCap s op h
    have := ih (Stack.applyOp s op) (by rw [h1]; exact h2)
    rw [h1] at this
    exact this

theorem Stack.pushAll_stateOf_withinCap {α : Type} :
    ∀ (vs : List α) (s : Stack α),
      withinCap s.maxCapacity s.items.length →
      (Stack.stateOf (Stack.pushAll s vs)).maxCapacity = s.maxCapacity ∧
        withinCap s.maxCapacity (Stack.stateOf (Stack.pushAll s vs)).items.length := by
  intro vs
  induction vs with
  | nil => intro s h; exact ⟨rfl, h⟩
  | cons e rest ih =>
    intro s h
    simp only [Stack.pushAll]
    cases hp : s.push e with
    | ok s1 =>
      obtain ⟨h1, h2⟩ := Stack.push_eq_ok hp
      rw [Stack.isFull_false_iff] at h2
      have hcap1 : withinCap s1.maxCapacity s1.items.length := by
        subst h1
        cases hc : s.maxCapacity with
        | none => simp [withinCap]
        | some c =>
          have := h2 c hc
          simp only [withinCap, List.length_append, List.length_cons, List.length_nil]
          omega
      have := ih s1 hcap1
      rw [show s1.maxCapacity = s.maxCapacity from by rw [h1]] at this
      exact this
    | error e1 =>
      obtain ⟨he, -⟩ := Stack.push_eq_error hp
      subst he
      exact ⟨rfl, h⟩

theorem Queue.enqueue_eq_error {α : Type} {q : Queue α} {v : α}
    {err : DSError × Queue α} (h : q.enqueue v = .error err) :
    err = (.capacityError "Queue has reached maximum capacity", q) ∧ q.isFull = true := by
  unfold Queue.enqueue at h
  split at h
  · next hfull => exact ⟨by cases h; rfl, hfull⟩
  · simp at h

theorem Queue.isFull_queue_false_iff {α : Type} (q : Queue α) :
    q.isFull = false ↔ ∀ c, q.maxCapacity = some c → q.items.length < c := by
  unfold Queue.isFull
  cases q.maxCapacity <;> simp

theorem Queue.applyOp_queue_withinCap {α : Type} (q : Queue α) (op : QueueOp α)
    (h : withinCap q.maxCapacity q.items.length) :
    (Queue.applyOp q op).maxCapacity = q.maxCapacity ∧
      withinCap q.maxCapacity (Queue.applyOp q op).items.length := by
  cases op with
  | enqueue v =>
    simp only [Queue.applyOp]
    cases hf : q.enqueue v with
    | ok q1 =>
      obtain ⟨h1, h2⟩ := Queue.enqueue_eq_ok hf
      subst h1
      rw [Queue.isFull_queue_false_iff] at h2
      refine ⟨rfl, ?_⟩
      cases hc : q.maxCapacity with
      | none => simp [withinCap]
      | some c =>
        have := h2 c hc
        simp only [withinCap, List.length_append, List.length_cons, List.length_nil]
        omega
    | error e =>
      obtain ⟨he, -⟩ := Queue.enqueue_eq_error hf
      subst he
      exact ⟨rfl, h⟩
  | dequeue =>
    simp only [Queue.applyOp]
    cases hf : q.dequeue with
    | ok r =>
      unfold Queue.dequeue at hf
      split at hf
      · simp at hf
      · cases hf
        refine ⟨rfl, withinCap_mono h ?_⟩
        cases hq : q.items with
        | nil => simp [arrayShift]
        | cons a rest => simp [arrayShift]
    | error e =>
      unfold Queue.dequeue at hf
      split at hf
      · cases hf
        exact ⟨rfl, h⟩
      · simp at hf
  | peekFront =>
    simp only [Queue.applyOp]
    cases hf : q.peekFront with
    | ok r => exact ⟨rfl, h⟩
    | error e =>
      unfold Queue.peekFront at hf
      split at hf
      · cases hf
        exact ⟨rfl, h⟩
      · simp at hf
  | peekRear =>
    simp only [Queue.applyOp]
    cases hf : q.peekRear with
    | ok r => exact ⟨rfl, h⟩
    | error e =>
      unfold Queue.peekRear at hf
      split at hf
      · cases hf
        exact ⟨rfl, h⟩
      · simp at hf
  | dequeueSafe =>
    simp only [Queue.applyOp, Queue.dequeueSafe]
    refine ⟨trivial, withinCap_mono h ?_⟩
    cases hq : q.items with
    | nil => simp [arrayShift]
    | cons a rest => simp [arrayShift]
  | peekFrontSafe => exact ⟨rfl, h⟩
  | peekRearSafe => exact ⟨rfl, h⟩
  | clear =>
    simp only [Queue.applyOp, Queue.clear]
    exact ⟨trivial, withinCap_mono h (Nat.zero_le _)⟩

theorem Queue.applyOps_queue_withinCap {α : Type} :
    ∀ (ops : List (QueueOp α)) (q : Queue α),
      withinCap q.maxCapacity q.items.length →
      (Queue.applyOps q ops).maxCapacity = q.maxCapacity ∧
        withinCap q.maxCapacity (Queue.applyOps q ops).items.length := by
  intro ops
  induction ops with
  | nil => intro q h; exact ⟨rfl, h⟩
  | cons op rest ih =>
    intro q h
    obtain ⟨h1, h2⟩ := Queue.applyOp_queue_withinCap q op h
    have := ih (Queue.applyOp q op) (by rw [h1]; exact h2)
    rw [h1] at this
    exact this

theorem Queue.enqueueAll_stateOf_withinCap {α : Type} :
    ∀ (vs : List α) (q : Queue α),
      withinCap q.maxCapacity q.items.length →
      (Queue.stateOf (Queue.enqueueAll q vs)).maxCapacity = q.maxCapacity ∧
        withinCap q.maxCapacity (Queue.stateOf (Queue.enqueueAll q vs)).items.length := by
  intro vs
  induction vs with
  | nil => intro q h; exact ⟨rfl, h⟩
  | cons e rest ih =>
    intro q h
    simp only [Queue.enqueueAll]
    cases hp : q.enqueue e with
    | ok q1 =>
      obtain ⟨h1, h2⟩ := Queue.enqueue_eq_ok hp
      rw [Queue.isFull_queue_false_iff] at h2
      have hcap1 : withinCap q1.maxCapacity q1.items.length := by
        subst h1
        cases hc : q.maxCapacity with
        | none => simp [withinCap]
        | some c =>
          have := h2 c hc
          simp only [withinCap, List.length_append, List.length_cons, List.length_nil]
          omega
      have := ih q1 hcap1
      rw [show q1.maxCapacity = q.maxCapacity from by rw [h1]] at this
      exact this
    | error e1 =>
      obtain ⟨he, -⟩ := Queue.enqueue_eq_error hp
      subst he
      exact ⟨rfl, h⟩

theorem Deque.isFull_deque_false_iff {α : Type} (d : Deque α) :
    d.isFull = false ↔ ∀ c, d.maxCapacity = some c → d.items.length < c := by
  unfold Deque.isFull
  cases d.maxCapacity <;> simp

theorem Deque.addRear_eq_ok {α : Type} {d d1 : Deque α} {e : α}
    (h : d.addRear e = .ok d1) :
    d1 = ⟨d.items ++ [e], d.maxCapacity⟩ ∧ d.isFull = false := by
  unfold Deque.addRear at h
  split at h
  · simp at h
  · next hfull => exact ⟨by cases h; rfl, by simpa using hfull⟩

theorem Deque.addRear_eq_error {α : Type} {d : Deque α} {v : α}
    {err : DSError × Deque α} (h : d.addRear v = .error err) :
    err = (.capacityError "Deque has reached maximum capacity", d) ∧ d.isFull = true := by
  unfold Deque.addRear at h
  split at h
  · next hfull => exact ⟨by cases h; rfl, hfull⟩
  · simp at h

theorem Deque.addFront_eq_ok {α : Type} {d d1 : Deque α} {e : α}
    (h : d.addFront e = .ok d1) :
    d1 = ⟨e :: d.items, d.maxCapacity⟩ ∧ d.isFull = false := by
  unfold Deque.addFront at h
  split at h
  · simp at h
  · next hfull => exact ⟨by cases h; rfl, by simpa using hfull⟩

theorem Deque.addFront_eq_error {α : Type} {d : Deque α} {v : α}
    {err : DSError × Deque α} (h : d.addFront v = .error err) :
    err = (.capacityError "Deque has reached maximum capacity", d) ∧ d.isFull = true := by
  unfold Deque.addFront at h
  split at h
  · next hfull => exact ⟨by cases h; rfl, hfull⟩
  · simp at h

theorem Deque.applyOp_deque_withinCap {α : Type} (d : Deque α) (op : DequeOp α)
    (h : withinCap d.maxCapacity d.items.length) :
    (Deque.applyOp d op).maxCapacity = d.maxCapacity ∧
      withinCap d.maxCapacity (Deque.applyOp d op).items.length := by
  cases op with
  | addFront v =>
    simp only [Deque.applyOp]
    cases hf : d.addFront v with
    | ok d1 =>
      obtain ⟨h1, h2⟩ := Deque.addFront_eq_ok hf
      subst h1
      rw [Deque.isFull_deque_false_iff] at h2
      refine ⟨rfl, ?_⟩
      cases hc : d.maxCapacity with
      | none => simp [withinCap]
      | some c =>
        have := h2 c hc
        simp only [withinCap, List.length_cons]
        omega
    | error e =>
      obtain ⟨he, -⟩ := Deque.addFront_eq_error hf
      subst he
      exact ⟨rfl, h⟩
  | addRear v =>
    simp only [Deque.applyOp]
    cases hf : d.addRear v with
    | ok d1 =>
      obtain ⟨h1, h2⟩ := Deque.addRear_eq_ok hf
      subst h1
      rw [Deque.isFull_deque_false_iff] at h2
      refine ⟨rfl, ?_⟩
      cases hc : d.maxCapacity with
      | none => simp [withinCap]
      | some c =>
        have := h2 c hc
        simp only [withinCap, List.length_append, List.length_cons, List.length_nil]
        omega
    | error e =>
      obtain ⟨he, -⟩ := Deque.addRear_eq_error hf
      subst he
      exact ⟨rfl, h⟩
  | removeFront =>
    simp only [Deque.applyOp]
    cases hf : d.removeFront with
    | ok r =>
      unfold Deque.removeFront at hf
      split at hf
      · simp at hf
      · cases hf
        refine ⟨rfl, withinCap_mono h ?_⟩
        cases hq : d.items with
        | nil => simp [arrayShift]
        | cons a rest => simp [arrayShift]
    | error e =>
      unfold Deque.removeFront at hf
      split at hf
      · cases hf
        exact ⟨rfl, h⟩
      · simp at hf
  | removeRear =>
    simp only [Deque.applyOp]
    cases hf : d.removeRear with
    | ok r =>
      unfold Deque.removeRear at hf
      split at hf
      · simp at hf
      · cases hf
        exact ⟨rfl, withinCap_mono h (by simp [arrayPop, List.length_dropLast])⟩
    | error e =>
      unfold Deque.removeRear at hf
      split at hf
      · cases hf
        exact ⟨rfl, h⟩
      · simp at hf
  | peekFront =>
    simp only [Deque.applyOp]
    cases hf : d.peekFront with
    | ok r => exact ⟨rfl, h⟩
    | error e =>
      unfold Deque.peekFront at hf
      split at hf
      · cases hf
        exact ⟨rfl, h⟩
      · simp at hf
  | peekRear =>
    simp only [Deque.applyOp]
    cases hf : d.peekRear with
    | ok r => exact ⟨rfl, h⟩
    | error e =>
      unfold Deque.peekRear at hf
      split at hf
      · cases hf
        exact ⟨rfl, h⟩
      · simp at hf
  | removeFrontSafe =>
    simp only [Deque.applyOp, Deque.removeFrontSafe]
    refine ⟨trivial, withinCap_mono h ?_⟩
    cases hq : d.items with
    | nil => simp [arrayShift]
    | cons a rest => simp [arrayShift]
  | removeRearSafe =>
    simp only [Deque.applyOp, Deque.removeRearSafe]
    exact ⟨trivial, withinCap_mono h (by simp [arrayPop, List.length_dropLast])⟩
  | peekFrontSafe => exact ⟨rfl, h⟩
  | peekRearSafe => exact ⟨rfl, h⟩
  | clear =>
    simp only [Deque.applyOp, Deque.clear]
    exact ⟨trivial, withinCap_mono h (Nat.zero_le _)⟩
  | reverse =>
    simp only [Deque.applyOp, Deque.reverse]
    exact ⟨trivial, withinCap_mono h (by simp)⟩

theorem Deque.applyOps_deque_withinCap {α : Type} :
    ∀ (ops : List (DequeOp α)) (d : Deque α),
      withinCap d.maxCapacity d.items.length →
      (Deque.applyOps d ops).maxCapacity = d.maxCapacity ∧
        withinCap d.maxCapacity (Deque.applyOps d ops).items.length := by
  intro ops
  induction ops with
  | nil => intro d h; exact ⟨rfl, h⟩
  | cons op rest ih =>
    intro d h
    obtain ⟨h1, h2⟩ := Deque.applyOp_deque_withinCap d op h
    have := ih (Deque.applyOp d op) (by rw [h1]; exact h2)
    rw [h1] at this
    exact this

theorem Deque.addRearAll_stateOf_withinCap {α : Type} :
    ∀ (vs : List α) (d : Deque α),
      withinCap d.maxCapacity d.items.length →
      (Deque.stateOf (Deque.addRearAll d vs)).maxCapacity = d.maxCapacity ∧
        withinCap d.maxCapacity (Deque.stateOf (Deque.addRearAll d vs)).items.length := by
  intro vs
  induction vs with
  | nil => intro d h; exact ⟨rfl, h⟩
  | cons e rest ih =>
    intro d h
    simp only [Deque.addRearAll]
    cases hp : d.addRear e with
    | ok d1 =>
      obtain ⟨h1, h2⟩ := Deque.addRear_eq_ok hp
      rw [Deque.isFull_deque_false_iff] at h2
      have hcap1 : withinCap d1.maxCapacity d1.items.length := by
        subst h1
        cases hc : d.maxCapacity with
        | none => simp [withinCap]
        | some c =>
          have := h2 c hc
          simp only [withinCap, List.length_append, List.length_cons, List.length_nil]
          omega
      have := ih d1 hcap1
      rw [show d1.maxCapacity = d.maxCapacity from by rw [h1]] at this
      exact this
    | error e1 =>
      obtain ⟨he, -⟩ := Deque.addRear_eq_error hp
      subst he
      exact ⟨rfl, h⟩

/-- Claim C1 (capacity invariant): for each container kind with
`maxCapacity = some C` (C a non-negative integer), (i) after any sequence of
public operations `size() ≤ C` still holds and the capacity bound is
unchanged; (ii) an insert attempted while `size() = C` throws CapacityError
and leaves the container exactly as it was (so `size() = C` still); and
(iii) the state in which construction from `initialElements` ends — whether
it completes or throws partway — satisfies `size() ≤ C`, because the
constructor inserts through the same capacity-checked path. -/
theorem claim1_capacity_invariant :
    (∀ (α : Type) (s : Stack α) (C : Nat) (ops : List (StackOp α)),
        s.maxCapacity = some C → s.items.length ≤ C →
        (Stack.applyOps s ops).items.length ≤ C ∧
          (Stack.applyOps s ops).maxCapacity = some C) ∧
    (∀ (α : Type) (s : Stack α) (C : Nat) (v : α),
        s.maxCapacity = some C → s.items.length = C →
        s.push v = .error (.capacityError "Stack has reached maximum capacity", s)) ∧
    (∀ (α : Type) (C : Nat) (ic : Option Nat) (elems : List α),
        (Stack.stateOf (Stack.new ⟨ic, some C, some elems⟩)).items.length ≤ C ∧
          (Stack.stateOf (Stack.new ⟨ic, some C, some elems⟩)).maxCapacity = some C) ∧
    (∀ (α : Type) (q : Queue α) (C : Nat) (ops : List (QueueOp α)),
        q.maxCapacity = some C → q.items.length ≤ C →
        (Queue.applyOps q ops).items.length ≤ C ∧
          (Queue.applyOps q ops).maxCapacity = some C) ∧
    (∀ (α : Type) (q : Queue α) (C : Nat) (v : α),
        q.maxCapacity = some C → q.items.length = C →
        q.enqueue v = .error (.capacityError "Queue has reached maximum capacity", q)) ∧
    (∀ (α : Type) (C : Nat) (ic : Option Nat) (elems : List α),
        (Queue.stateOf (Queue.new ⟨ic, some C, some elems⟩)).items.length ≤ C ∧
          (Queue.stateOf (Queue.new ⟨ic, some C, some elems⟩)).maxCapacity = some C) ∧
    (∀ (α : Type) (d : Deque α) (C : Nat) (ops : List (DequeOp α)),
        d.maxCapacity = some C → d.items.length ≤ C →
        (Deque.applyOps d ops).items.length ≤ C ∧
          (Deque.applyOps d ops).maxCapacity = some C) ∧
    (∀ (α : Type) (d : Deque α) (C : Nat) (v : α),
        d.maxCapacity = some C → d.items.length = C →
        d.addFront v = .error (.capacityError "Deque has reached maximum capacity", d) ∧
          d.addRear v = .error (.capacityError "Deque has reached maximum capacity", d)) ∧
    (∀ (α : Type) (C : Nat) (ic : Option Nat) (elems : List α),
        (Deque.stateOf (Deque.new ⟨ic, some C, some elems⟩)).items.length ≤ C ∧
          (Deque.stateOf (Deque.new ⟨ic, some C, some elems⟩)).maxCapacity = some C) := by
  refine ⟨?_, ?_, ?_, ?_, ?_, ?_, ?_, ?_, ?_⟩
  · intro α s C ops hc hlen
    obtain ⟨h1, h2⟩ := Stack.applyOps_withinCap ops s (by rw [hc]; simpa [withinCap])
    rw [hc] at h1 h2
    exact ⟨by simpa [withinCap] using h2, h1⟩
  · intro α s C v hc hlen
    have hf : s.isFull = true := by
      unfold Stack.isFull
      rw [hc]
      simp [hlen]
    simp [Stack.push, hf]
  · intro α C ic elems
    obtain ⟨h1, h2⟩ :=
      Stack.pushAll_stateOf_withinCap elems ⟨[], some C⟩ (by simp [withinCap])
    simp only [Stack.new]
    exact ⟨by simpa [withinCap] using h2, h1⟩
  · intro α q C ops hc hlen
    obtain ⟨h1, h2⟩ := Queue.applyOps_queue_withinCap ops q (by rw [hc]; simpa [withinCap])
    rw [hc] at h1 h2
    exact ⟨by simpa [withinCap] using h2, h1⟩
  · intro α q C v hc hlen
    have hf : q.isFull = true := by
      unfold Queue.isFull
      rw [hc]
      simp [hlen]
    simp [Queue.enqueue, hf]
  · intro α C ic elems
    obtain ⟨h1, h2⟩ :=
      Queue.enqueueAll_stateOf_withinCap elems ⟨[], some C⟩ (by simp [withinCap])
    simp only [Queue.new]
    exact ⟨by simpa [withinCap] using h2, h1⟩
  · intro α d C ops hc hlen
    obtain ⟨h1, h2⟩ := Deque.applyOps_deque_withinCap ops d (by rw [hc]; simpa [withinCap])
    rw [hc] at h1 h2
    exact ⟨by simpa [withinCap] using h2, h1⟩
  · intro α d C v hc hlen
    have hf : d.isFull = true := by
      unfold Deque.isFull
      rw [hc]
      simp [hlen]
    exact ⟨by simp [Deque.addFront, hf], by simp [Deque.addRear, hf]⟩
  · intro α C ic elems
    obtain ⟨h1, h2⟩ :=
      Deque.addRearAll_stateOf_withinCap elems ⟨[], some C⟩ (by simp [withinCap])
    simp only [Deque.new]
    exact ⟨by simpa [withinCap] using h2, h1⟩

/-- Witness for C1 at concrete inputs: a capacity-2 stack driven past its
bound, a full capacity-1 container rejecting an insert unchanged, and
construction of each container kind from more initial elements than the
capacity admits. -/
theorem claim1_capacity_invariant_witness :
    ((Stack.applyOps (Stack.mk ([] : List Nat) (some 2)) [.push 1, .push 2, .push 3, .pop]).items.length ≤ 2 ∧
      (Stack.applyOps (Stack.mk ([] : List Nat) (some 2)) [.push 1, .push 2, .push 3, .pop]).maxCapacity = some 2) ∧
    (Stack.push (Stack.mk [7] (some 1)) (9 : Nat) =
      .error (.capacityError "Stack has reached maximum capacity", Stack.mk [7] (some 1))) ∧
    ((Stack.stateOf (Stack.new (⟨none, some 1, some [4, 5, 6]⟩ : StackOptions Nat))).items.length ≤ 1 ∧
      (Stack.stateOf (Stack.new (⟨none, some 1, some [4, 5, 6]⟩ : StackOptions Nat))).maxCapacity = some 1) ∧
    ((Queue.applyOps (Queue.mk ([] : List Nat) (some 2)) [.enqueue 1, .enqueue 2, .enqueue 3, .dequeue]).items.length ≤ 2 ∧
      (Queue.applyOps (Queue.mk ([] : List Nat) (some 2)) [.enqueue 1, .enqueue 2, .enqueue 3, .dequeue]).maxCapacity = some 2) ∧
    (Queue.enqueue (Queue.mk [7] (some 1)) (9 : Nat) =
      .error (.capacityError "Queue has reached maximum capacity", Queue.mk [7] (some 1))) ∧
    ((Queue.stateOf (Queue.new (⟨none, some 1, some [4, 5, 6]⟩ : QueueOptions Nat))).items.length ≤ 1 ∧
      (Queue.stateOf (Queue.new (⟨none, some 1, some [4, 5, 6]⟩ : QueueOptions Nat))).maxCapacity = some 1) ∧
    ((Deque.applyOps (Deque.mk ([] : List Nat) (some 2)) [.addRear 1, .addFront 2, .addRear 3, .removeFront]).items.length ≤ 2 ∧
      (Deque.applyOps (Deque.mk ([] : List Nat) (some 2)) [.addRear 1, .addFront 2, .addRear 3, .removeFront]).maxCapacity = some 2) ∧
    (Deque.addFront (Deque.mk [7] (some 1)) (9 : Nat) =
        .error (.capacityError "Deque has reached maximum capacity", Deque.mk [7] (some 1)) ∧
      Deque.addRear (Deque.mk [7] (some 1)) (9 : Nat) =
        .error (.capacityError "Deque has reached maximum capacity", Deque.mk [7] (some 1))) ∧
    ((Deque.stateOf (Deque.new (⟨none, some 1, some [4, 5, 6]⟩ : DequeOptions Nat))).items.length ≤ 1 ∧
      (Deque.stateOf (Deque.new (⟨none, some 1, some [4, 5, 6]⟩ : DequeOptions Nat))).maxCapacity = some 1) := by
  obtain ⟨s1, s2, s3, q1, q2, q3, d1, d2, d3⟩ := claim1_capacity_invariant
  exact ⟨s1 Nat (Stack.mk [] (some 2)) 2 _ rfl (by simp),
    s2 Nat (Stack.mk [7] (some 1)) 1 9 rfl (by simp),
    s3 Nat 1 none [4, 5, 6],
    q1 Nat (Queue.mk [] (some 2)) 2 _ rfl (by simp),
    q2 Nat (Queue.mk [7] (some 1)) 1 9 rfl (by simp),
    q3 Nat 1 none [4, 5, 6],
    d1 Nat (Deque.mk [] (some 2)) 2 _ rfl (by simp),
    d2 Nat (Deque.mk [7] (some 1)) 1 9 rfl (by simp),
    d3 Nat 1 none [4, 5, 6]⟩

/-- Claim C4 (raises-iff and error atomicity): every remove/peek operation
throws EmptyStructureError exactly when `size() = 0`, and every throwing
outcome — EmptyStructureError on remove/peek or CapacityError on insert —
carries the container state unchanged (element sequence, order and capacity
limit exactly as before the call). -/
theorem claim4_error_atomicity :
    (∀ (α : Type) (s : Stack α),
        (s.items.length = 0 → s.pop = .error (.emptyStructure "Stack", s)) ∧
          (s.items.length ≠ 0 → ∃ r, s.pop = .ok r)) ∧
    (∀ (α : Type) (s : Stack α),
        (s.items.length = 0 → s.peek = .error (.emptyStructure "Stack", s)) ∧
          (s.items.length ≠ 0 → ∃ r, s.peek = .ok r)) ∧
    (∀ (α : Type) (q : Queue α),
        (q.items.length = 0 → q.dequeue = .error (.emptyStructure "Queue", q)) ∧
          (q.items.length ≠ 0 → ∃ r, q.dequeue = .ok r)) ∧
    (∀ (α : Type) (q : Queue α),
        (q.items.length = 0 → q.peekFront = .error (.emptyStructure "Queue", q)) ∧
          (q.items.length ≠ 0 → ∃ r, q.peekFront = .ok r)) ∧
    (∀ (α : Type) (q : Queue α),
        (q.items.length = 0 → q.peekRear = .error (.emptyStructure "Queue", q)) ∧
          (q.items.length ≠ 0 → ∃ r, q.peekRear = .ok r)) ∧
    (∀ (α : Type) (d : Deque α),
        (d.items.length = 0 → d.removeFront = .error (.emptyStructure "Deque", d)) ∧
          (d.items.length ≠ 0 → ∃ r, d.removeFront = .ok r)) ∧
    (∀ (α : Type) (d : Deque α),
        (d.items.length = 0 → d.removeRear = .error (.emptyStructure "Deque", d)) ∧
          (d.items.length ≠ 0 → ∃ r, d.removeRear = .ok r)) ∧
    (∀ (α : Type) (d : Deque α),
        (d.items.length = 0 → d.peekFront = .error (.emptyStructure "Deque", d)) ∧
          (d.items.length ≠ 0 → ∃ r, d.peekFront = .ok r)) ∧
    (∀ (α : Type) (d : Deque α),
        (d.items.length = 0 → d.peekRear = .error (.emptyStructure "Deque", d)) ∧
          (d.items.length ≠ 0 → ∃ r, d.peekRear = .ok r)) ∧
    (∀ (α : Type) (s : Stack α) (v : α) (e : DSError) (s2 : Stack α),
        s.push v = .error (e, s2) → s2 = s) ∧
    (∀ (α : Type) (q : Queue α) (v : α) (e : DSError) (q2 : Queue α),
        q.enqueue v = .error (e, q2) → q2 = q) ∧
    (∀ (α : Type) (d : Deque α) (v : α) (e : DSError) (d2 : Deque α),
        d.addFront v = .error (e, d2) → d2 = d) ∧
    (∀ (α : Type) (d : Deque α) (v : α) (e : DSError) (d2 : Deque α),
        d.addRear v = .error (e, d2) → d2 = d) := by
  refine ⟨?_, ?_, ?_, ?_, ?_, ?_, ?_, ?_, ?_, ?_, ?_, ?_, ?_⟩
  · intro α s
    exact ⟨fun h => by simp [Stack.pop, Stack.isEmpty, h],
      fun h => by simp [Stack.pop, Stack.isEmpty, h]⟩
  · intro α s
    exact ⟨fun h => by simp [Stack.peek, Stack.isEmpty, h],
      fun h => by simp [Stack.peek, Stack.isEmpty, h]⟩
  · intro α q
    exact ⟨fun h => by simp [Queue.dequeue, Queue.isEmpty, h],
      fun h => by simp [Queue.dequeue, Queue.isEmpty, h]⟩
  · intro α q
    exact ⟨fun h => by simp [Queue.peekFront, Queue.isEmpty, h],
      fun h => by simp [Queue.peekFront, Queue.isEmpty, h]⟩
  · intro α q
    exact ⟨fun h => by simp [Queue.peekRear, Queue.isEmpty, h],
      fun h => by simp [Queue.peekRear, Queue.isEmpty, h]⟩
  · intro α d
    exact ⟨fun h => by simp [Deque.removeFront, Deque.isEmpty, h],
      fun h => by simp [Deque.removeFront, Deque.isEmpty, h]⟩
  · intro α d
    exact ⟨fun h => by simp [Deque.removeRear, Deque.isEmpty, h],
      fun h => by simp [Deque.removeRear, Deque.isEmpty, h]⟩
  · intro α d
    exact ⟨fun h => by simp [Deque.peekFront, Deque.isEmpty, h],
      fun h => by simp [Deque.peekFront, Deque.isEmpty, h]⟩
  · intro α d
    exact ⟨fun h => by simp [Deque.peekRear, Deque.isEmpty, h],
      fun h => by simp [Deque.peekRear, Deque.isEmpty, h]⟩
  · intro α s v e s2 h
    exact congrArg Prod.snd (Stack.push_eq_error h).1
  · intro α q v e q2 h
    exact congrArg Prod.snd (Queue.enqueue_eq_error h).1
  · intro α d v e d2 h
    exact congrArg Prod.snd (Deque.addFront_eq_error h).1
  · intro α d v e d2 h
    exact congrArg Prod.snd (Deque.addRear_eq_error h).1

/-- Witness for C4 at concrete inputs: each remove/peek operation throwing on
an empty container and succeeding on a one-element container, and each
insert's CapacityError leaving a full capacity-1 container unchanged. -/
theorem claim4_error_atomicity_witness :
    (Stack.pop (Stack.mk ([] : List Nat) none) = .error (.emptyStructure "Stack", Stack.mk [] none) ∧
      (∃ r, Stack.pop (Stack.mk [5] (none : Option Nat)) = .ok r)) ∧
    (Stack.peek (Stack.mk ([] : List Nat) none) = .error (.emptyStructure "Stack", Stack.mk [] none) ∧
      (∃ r, Stack.peek (Stack.mk [5] (none : Option Nat)) = .ok r)) ∧
    (Queue.dequeue (Queue.mk ([] : List Nat) none) = .error (.emptyStructure "Queue", Queue.mk [] none) ∧
      (∃ r, Queue.dequeue (Queue.mk [5] (none : Option Nat)) = .ok r)) ∧
    (Queue.peekFront (Queue.mk ([] : List Nat) none) = .error (.emptyStructure "Queue", Queue.mk [] none) ∧
      (∃ r, Queue.peekFront (Queue.mk [5] (none : Option Nat)) = .ok r)) ∧
    (Queue.peekRear (Queue.mk ([] : List Nat) none) = .error (.emptyStructure "Queue", Queue.mk [] none) ∧
      (∃ r, Queue.peekRear (Queue.mk [5] (none : Option Nat)) = .ok r)) ∧
    (Deque.removeFront (Deque.mk ([] : List Nat) none) = .error (.emptyStructure "Deque", Deque.mk [] none) ∧
      (∃ r, Deque.removeFront (Deque.mk [5] (none : Option Nat)) = .ok r)) ∧
    (Deque.removeRear (Deque.mk ([] : List Nat) none) = .error (.emptyStructure "Deque", Deque.mk [] none) ∧
      (∃ r, Deque.removeRear (Deque.mk [5] (none : Option Nat)) = .ok r)) ∧
    (Deque.peekFront (Deque.mk ([] : List Nat) none) = .error (.emptyStructure "Deque", Deque.mk [] none) ∧
      (∃ r, Deque.peekFront (Deque.mk [5] (none : Option Nat)) = .ok r)) ∧
    (Deque.peekRear (Deque.mk ([] : List Nat) none) = .error (.emptyStructure "Deque", Deque.mk [] none) ∧
      (∃ r, Deque.peekRear (Deque.mk [5] (none : Option Nat)) = .ok r)) ∧
    Stack.mk [7] (some 1) = Stack.mk ([7] : List Nat) (some 1) ∧
    Queue.mk [7] (some 1) = Queue.mk ([7] : List Nat) (some 1) ∧
    Deque.mk [7] (some 1) = Deque.mk ([7] : List Nat) (some 1) ∧
    Deque.mk [8] (some 1) = Deque.mk ([8] : List Nat) (some 1) := by
  obtain ⟨p1, p2, p3, p4, p5, p6, p7, p8, p9, p10, p11, p12, p13⟩ := claim4_error_atomicity
  refine ⟨⟨(p1 Nat (Stack.mk [] none)).1 rfl, (p1 Nat (Stack.mk [5] none)).2 (by decide)⟩,
    ⟨(p2 Nat (Stack.mk [] none)).1 rfl, (p2 Nat (Stack.mk [5] none)).2 (by decide)⟩,
    ⟨(p3 Nat (Queue.mk [] none)).1 rfl, (p3 Nat (Queue.mk [5] none)).2 (by decide)⟩,
    ⟨(p4 Nat (Queue.mk [] none)).1 rfl, (p4 Nat (Queue.mk [5] none)).2 (by decide)⟩,
    ⟨(p5 Nat (Queue.mk [] none)).1 rfl, (p5 Nat (Queue.mk [5] none)).2 (by decide)⟩,
    ⟨(p6 Nat (Deque.mk [] none)).1 rfl, (p6 Nat (Deque.mk [5] none)).2 (by decide)⟩,
    ⟨(p7 Nat (Deque.mk [] none)).1 rfl, (p7 Nat (Deque.mk [5] none)).2 (by decide)⟩,
    ⟨(p8 Nat (Deque.mk [] none)).1 rfl, (p8 Nat (Deque.mk [5] none)).2 (by decide)⟩,
    ⟨(p9 Nat (Deque.mk [] none)).1 rfl, (p9 Nat (Deque.mk [5] none)).2 (by decide)⟩,
    p10 Nat (Stack.mk [7] (some 1)) 9 (.capacityError "Stack has reached maximum capacity") _ (by rfl),
    p11 Nat (Queue.mk [7] (some 1)) 9 (.capacityError "Queue has reached maximum capacity") _ (by rfl),
    p12 Nat (Deque.mk [7] (some 1)) 9 (.capacityError "Deque has reached maximum capacity") _ (by rfl),
    p13 Nat (Deque.mk [8] (some 1)) 9 (.capacityError "Deque has reached maximum capacity") _ (by rfl)⟩

/-- Claim C5 (safe-variant contract): each safe variant never throws (its
return type carries no error case); on an empty container it returns the
absent sentinel `none` and leaves the container unchanged, and on a
non-empty container it returns exactly the value and performs exactly the
state change of its throwing counterpart. -/
theorem claim5_safe_variants :
    (∀ (α : Type) (s : Stack α),
        (s.items = [] → s.popSafe = (none, s)) ∧
          (s.items ≠ [] → s.pop = .ok s.popSafe)) ∧
    (∀ (α : Type) (s : Stack α),
        (s.items = [] → s.peekSafe = none) ∧
          (s.items ≠ [] → s.peek = .ok s.peekSafe)) ∧
    (∀ (α : Type) (q : Queue α),
        (q.items = [] → q.dequeueSafe = (none, q)) ∧
          (q.items ≠ [] → q.dequeue = .ok q.dequeueSafe)) ∧
    (∀ (α : Type) (q : Queue α),
        (q.items = [] → q.peekFrontSafe = none) ∧
          (q.items ≠ [] → q.peekFront = .ok q.peekFrontSafe)) ∧
    (∀ (α : Type) (q : Queue α),
        (q.items = [] → q.peekRearSafe = none) ∧
          (q.items ≠ [] → q.peekRear = .ok q.peekRearSafe)) ∧
    (∀ (α : Type) (d : Deque α),
        (d.items = [] → d.removeFrontSafe = (none, d)) ∧
          (d.items ≠ [] → d.removeFront = .ok d.removeFrontSafe)) ∧
    (∀ (α : Type) (d : Deque α),
        (d.items = [] → d.removeRearSafe = (none, d)) ∧
          (d.items ≠ [] → d.removeRear = .ok d.removeRearSafe)) ∧
    (∀ (α : Type) (d : Deque α),
        (d.items = [] → d.peekFrontSafe = none) ∧
          (d.items ≠ [] → d.peekFront = .ok d.peekFrontSafe)) ∧
    (∀ (α : Type) (d : Deque α),
        (d.items = [] → d.peekRearSafe = none) ∧
          (d.items ≠ [] → d.peekRear = .ok d.peekRearSafe)) := by
  refine ⟨?_, ?_, ?_, ?_, ?_, ?_, ?_, ?_, ?_⟩
  · intro α s
    obtain ⟨items, cap⟩ := s
    constructor
    · rintro rfl
      simp [Stack.popSafe, arrayPop]
    · intro h
      simp [Stack.pop, Stack.popSafe, Stack.isEmpty, List.length_eq_zero, h]
  · intro α s
    obtain ⟨items, cap⟩ := s
    constructor
    · rintro rfl
      simp [Stack.peekSafe, arrayGet]
    · intro h
      simp [Stack.peek, Stack.peekSafe, Stack.isEmpty, List.length_eq_zero, h]
  · intro α q
    obtain ⟨items, cap⟩ := q
    constructor
    · rintro rfl
      simp [Queue.dequeueSafe, arrayShift]
    · intro h
      simp [Queue.dequeue, Queue.dequeueSafe, Queue.isEmpty, List.length_eq_zero, h]
  · intro α q
    obtain ⟨items, cap⟩ := q
    constructor
    · rintro rfl
      simp [Queue.peekFrontSafe, arrayGet]
    · intro h
      simp [Queue.peekFront, Queue.peekFrontSafe, Queue.isEmpty, List.length_eq_zero, h]
  · intro α q
    obtain ⟨items, cap⟩ := q
    constructor
    · rintro rfl
      simp [Queue.peekRearSafe, arrayGet]
    · intro h
      simp [Queue.peekRear, Queue.peekRearSafe, Queue.isEmpty, List.length_eq_zero, h]
  · intro α d
    obtain ⟨items, cap⟩ := d
    constructor
    · rintro rfl
      simp [Deque.removeFrontSafe, arrayShift]
    · intro h
      simp [Deque.removeFront, Deque.removeFrontSafe, Deque.isEmpty, List.length_eq_zero, h]
  · intro α d
    obtain ⟨items, cap⟩ := d
    constructor
    · rintro rfl
      simp [Deque.removeRearSafe, arrayPop]
    · intro h
      simp [Deque.removeRear, Deque.removeRearSafe, Deque.isEmpty, List.length_eq_zero, h]
  · intro α d
    obtain ⟨items, cap⟩ := d
    constructor
    · rintro rfl
      simp [Deque.peekFrontSafe, arrayGet]
    · intro h
      simp [Deque.peekFront, Deque.peekFrontSafe, Deque.isEmpty, List.length_eq_zero, h]
  · intro α d
    obtain ⟨items, cap⟩ := d
    constructor
    · rintro rfl
      simp [Deque.peekRearSafe, arrayGet]
    · intro h
      simp [Deque.peekRear, Deque.peekRearSafe, Deque.isEmpty, List.length_eq_zero, h]

/-- Witness for C5 at concrete inputs: each safe variant on an empty and on a
one-element container. -/
theorem claim5_safe_variants_witness :
    (Stack.popSafe (Stack.mk ([] : List Nat) none) = (none, Stack.mk [] none) ∧
      Stack.pop (Stack.mk [5] (none : Option Nat)) = .ok (Stack.popSafe (Stack.mk [5] none))) ∧
    (Stack.peekSafe (Stack.mk ([] : List Nat) none) = none ∧
      Stack.peek (Stack.mk [5] (none : Option Nat)) = .ok (Stack.peekSafe (Stack.mk [5] none))) ∧
    (Queue.dequeueSafe (Queue.mk ([] : List Nat) none) = (none, Queue.mk [] none) ∧
      Queue.dequeue (Queue.mk [5] (none : Option Nat)) = .ok (Queue.dequeueSafe (Queue.mk [5] none))) ∧
    (Queue.peekFrontSafe (Queue.mk ([] : List Nat) none) = none ∧
      Queue.peekFront (Queue.mk [5] (none : Option Nat)) = .ok (Queue.peekFrontSafe (Queue.mk [5] none))) ∧
    (Queue.peekRearSafe (Queue.mk ([] : List Nat) none) = none ∧
      Queue.peekRear (Queue.mk [5] (none : Option Nat)) = .ok (Queue.peekRearSafe (Queue.mk [5] none))) ∧
    (Deque.removeFrontSafe (Deque.mk ([] : List Nat) none) = (none, Deque.mk [] none) ∧
      Deque.removeFront (Deque.mk [5] (none : Option Nat)) = .ok (Deque.removeFrontSafe (Deque.mk [5] none))) ∧
    (Deque.removeRearSafe (Deque.mk ([] : List Nat) none) = (none, Deque.mk [] none) ∧
      Deque.removeRear (Deque.mk [5] (none : Option Nat)) = .ok (Deque.removeRearSafe (Deque.mk [5] none))) ∧
    (Deque.peekFrontSafe (Deque.mk ([] : List Nat) none) = none ∧
      Deque.peekFront (Deque.mk [5] (none : Option Nat)) = .ok (Deque.peekFrontSafe (Deque.mk [5] none))) ∧
    (Deque.peekRearSafe (Deque.mk ([] : List Nat) none) = none ∧
      Deque.peekRear (Deque.mk [5] (none : Option Nat)) = .ok (Deque.peekRearSafe (Deque.mk [5] none))) := by
  obtain ⟨p1, p2, p3, p4, p5, p6, p7, p8, p9⟩ := claim5_safe_variants
  exact ⟨⟨(p1 Nat (Stack.mk [] none)).1 rfl, (p1 Nat (Stack.mk [5] none)).2 (by decide)⟩,
    ⟨(p2 Nat (Stack.mk [] none)).1 rfl, (p2 Nat (Stack.mk [5] none)).2 (by decide)⟩,
    ⟨(p3 Nat (Queue.mk [] none)).1 rfl, (p3 Nat (Queue.mk [5] none)).2 (by decide)⟩,
    ⟨(p4 Nat (Queue.mk [] none)).1 rfl, (p4 Nat (Queue.mk [5] none)).2 (by decide)⟩,
    ⟨(p5 Nat (Queue.mk [] none)).1 rfl, (p5 Nat (Queue.mk [5] none)).2 (by decide)⟩,
    ⟨(p6 Nat (Deque.mk [] none)).1 rfl, (p6 Nat (Deque.mk [5] none)).2 (by decide)⟩,
    ⟨(p7 Nat (Deque.mk [] none)).1 rfl, (p7 Nat (Deque.mk [5] none)).2 (by decide)⟩,
    ⟨(p8 Nat (Deque.mk [] none)).1 rfl, (p8 Nat (Deque.mk [5] none)).2 (by decide)⟩,
    ⟨(p9 Nat (Deque.mk [] none)).1 rfl, (p9 Nat (Deque.mk [5] none)).2 (by decide)⟩⟩

theorem jsFilterFrom_of_const {α : Type} {p : α → Nat → Bool}
    (hp : ∀ v i j, p v i = p v j) :
    ∀ (l : List α) (i : Nat), jsFilterFrom p l i = l.filter (fun v => p v 0) := by
  intro l
  induction l with
  | nil => intro i; rfl
  | cons a rest ih =>
    intro i
    simp only [jsFilterFrom, List.filter_cons, hp a i 0, ih]

theorem jsFilterFrom_length_le {α : Type} (p : α → Nat → Bool) :
    ∀ (l : List α) (i : Nat), (jsFilterFrom p l i).length ≤ l.length := by
  intro l
  induction l with
  | nil => intro i; simp [jsFilterFrom]
  | cons a rest ih =>
    intro i
    simp only [jsFilterFrom, List.length_cons]
    split
    · simpa using Nat.succ_le_succ (ih (i + 1))
    · exact Nat.le_succ_of_le (ih (i + 1))

theorem jsMapFrom_of_const {α β : Type} {m : α → Nat → β}
    (hm : ∀ v i j, m v i = m v j) :
    ∀ (l : List α) (i : Nat), jsMapFrom m l i = l.map (fun v => m v 0) := by
  intro l
  induction l with
  | nil => intro i; rfl
  | cons a rest ih =>
    intro i
    simp only [jsMapFrom, List.map_cons, hm a i 0, ih]

theorem jsMapFrom_length {α β : Type} (m : α → Nat → β) :
    ∀ (l : List α) (i : Nat), (jsMapFrom m l i).length = l.length := by
  intro l
  induction l with
  | nil => intro i; rfl
  | cons a rest ih =>
    intro i
    simp only [jsMapFrom, List.length_cons, ih]

theorem Queue.enqueue_not_full {α : Type} {q : Queue α} (h : q.isFull = false) (e : α) :
    q.enqueue e = .ok ⟨q.items ++ [e], q.maxCapacity⟩ := by
  simp [Queue.enqueue, h]

theorem Queue.enqueueAll_ok_of_cap {α : Type} :
    ∀ (vs : List α) (q : Queue α),
      withinCap q.maxCapacity (q.items.length + vs.length) →
      Queue.enqueueAll q vs = .ok ⟨q.items ++ vs, q.maxCapacity⟩ := by
  intro vs
  induction vs with
  | nil =>
    intro q _
    simp only [Queue.enqueueAll, List.append_nil]
  | cons e rest ih =>
    intro q h
    have hfull : q.isFull = false := by
      rw [Queue.isFull_queue_false_iff]
      intro c hc
      rw [hc] at h
      simp only [withinCap, List.length_cons] at h
      omega
    have hpush := Queue.enqueue_not_full hfull e
    simp only [Queue.enqueueAll, hpush]
    have hcap : withinCap q.maxCapacity (q.items.length + 1 + rest.length) := by
      cases hc : q.maxCapacity with
      | none => simp [withinCap]
      | some c =>
        rw [hc] at h
        simp only [withinCap, List.length_cons] at h ⊢
        omega
    have := ih ⟨q.items ++ [e], q.maxCapacity⟩ (by simpa using hcap)
    rw [this]
    simp

theorem Deque.addRear_not_full {α : Type} {d : Deque α} (h : d.isFull = false) (e : α) :
    d.addRear e = .ok ⟨d.items ++ [e], d.maxCapacity⟩ := by
  simp [Deque.addRear, h]

theorem Deque.addRearAll_ok_of_cap {α : Type} :
    ∀ (vs : List α) (d : Deque α),
      withinCap d.maxCapacity (d.items.length + vs.length) →
      Deque.addRearAll d vs = .ok ⟨d.items ++ vs, d.maxCapacity⟩ := by
  intro vs
  induction vs with
  | nil =>
    intro d _
    simp only [Deque.addRearAll, List.append_nil]
  | cons e rest ih =>
    intro d h
    have hfull : d.isFull = false := by
      rw [Deque.isFull_deque_false_iff]
      intro c hc
      rw [hc] at h
      simp only [withinCap, List.length_cons] at h
      omega
    have hpush := Deque.addRear_not_full hfull e
    simp only [Deque.addRearAll, hpush]
    have hcap : withinCap d.maxCapacity (d.items.length + 1 + rest.length) := by
      cases hc : d.maxCapacity with
      | none => simp [withinCap]
      | some c =>
        rw [hc] at h
        simp only [withinCap, List.length_cons] at h ⊢
        omega
    have := ih ⟨d.items ++ [e], d.maxCapacity⟩ (by simpa using hcap)
    rw [this]
    simp

/-- Counterexample for C6 as stated: the claim quantifies over *every*
predicate, but `PredicateFn` also receives the element's index, and for a
Stack the display order (`toArray`, top first) reverses the internal index
order. For the stack holding [1, 2] (2 on top) and the predicate
`(v, i) => i == 0`, `filter(p)` keeps the bottom element 1 (index 0 of the
backing array), so `filter(p).toArray() = [1]`, while
`toArray().filter(p) = [2]` keeps the top element. -/
theorem claim6_counterexample :
    Stack.filter (Stack.mk [1, 2] (none : Option Nat)) (fun _ i => i == 0) =
      .ok (Stack.mk [1] none) ∧
    Stack.toArray (Stack.mk [1] (none : Option Nat)) ≠
      jsFilter (fun _ i => i == 0) (Stack.toArray (Stack.mk [1, 2] (none : Option Nat))) :=
  ⟨rfl, by decide⟩

/-- Claim C6, amended (filter/map naturality): for predicates and mappers
that depend only on the element value (ignoring the index argument —
necessary for Stack, whose display order reverses indices), and for *all*
`(value, index)` callbacks on Queue and Deque (whose display order equals
the internal order), `filter(p).toArray() = toArray().filter(p)` and
`map(m).toArray() = toArray().map(m)`, and the derived container inherits
the source's capacity limit. The `withinCap` hypothesis is the capacity
invariant every actually-constructed container satisfies (claim C1). -/
theorem claim6_filter_map_naturality :
    (∀ (α : Type) (s : Stack α) (p : α → Nat → Bool),
        withinCap s.maxCapacity s.items.length → (∀ v i j, p v i = p v j) →
        ∃ t, s.filter p = .ok t ∧ t.toArray = jsFilter p s.toArray ∧
          t.maxCapacity = s.maxCapacity) ∧
    (∀ (α β : Type) (s : Stack α) (m : α → Nat → β),
        withinCap s.maxCapacity s.items.length → (∀ v i j, m v i = m v j) →
        ∃ t, s.map m = .ok t ∧ t.toArray = jsMap m s.toArray ∧
          t.maxCapacity = s.maxCapacity) ∧
    (∀ (α : Type) (q : Queue α) (p : α → Nat → Bool),
        withinCap q.maxCapacity q.items.length →
        ∃ t, q.filter p = .ok t ∧ t.toArray = jsFilter p q.toArray ∧
          t.maxCapacity = q.maxCapacity) ∧
    (∀ (α β : Type) (q : Queue α) (m : α → Nat → β),
        withinCap q.maxCapacity q.items.length →
        ∃ t, q.map m = .ok t ∧ t.toArray = jsMap m q.toArray ∧
          t.maxCapacity = q.maxCapacity) ∧
    (∀ (α : Type) (d : Deque α) (p : α → Nat → Bool),
        withinCap d.maxCapacity d.items.length →
        ∃ t, d.filter p = .ok t ∧ t.toArray = jsFilter p d.toArray ∧
          t.maxCapacity = d.maxCapacity) ∧
    (∀ (α β : Type) (d : Deque α) (m : α → Nat → β),
        withinCap d.maxCapacity d.items.length →
        ∃ t, d.map m = .ok t ∧ t.toArray = jsMap m d.toArray ∧
          t.maxCapacity = d.maxCapacity) := by
  refine ⟨?_, ?_, ?_, ?_, ?_, ?_⟩
  · intro α s p hcap hp
    have hlen := jsFilterFrom_length_le p s.items 0
    have hok := Stack.pushAll_ok_of_cap (jsFilter p s.items) ⟨[], s.maxCapacity⟩
      (by simpa using withinCap_mono hcap (by simpa [jsFilter] using hlen))
    refine ⟨⟨jsFilter p s.items, s.maxCapacity⟩, ?_, ?_, rfl⟩
    · simp only [Stack.filter, Stack.new]
      simpa using hok
    · simp only [Stack.toArray, jsFilter, jsFilterFrom_of_const hp]
      exact (List.filter_reverse _ _).symm
  · intro α β s m hcap hm
    have hlen := jsMapFrom_length m s.items 0
    have hok := Stack.pushAll_ok_of_cap (jsMap m s.items) ⟨[], s.maxCapacity⟩
      (by simpa using withinCap_mono hcap (by simp [jsMap, hlen]))
    refine ⟨⟨jsMap m s.items, s.maxCapacity⟩, ?_, ?_, rfl⟩
    · simp only [Stack.map, Stack.new]
      simpa using hok
    · simp only [Stack.toArray, jsMap, jsMapFrom_of_const hm]
      exact (List.map_reverse _ _).symm
  · intro α q p hcap
    have hlen := jsFilterFrom_length_le p q.items 0
    have hok := Queue.enqueueAll_ok_of_cap (jsFilter p q.items) ⟨[], q.maxCapacity⟩
      (by simpa using withinCap_mono hcap (by simpa [jsFilter] using hlen))
    refine ⟨⟨jsFilter p q.items, q.maxCapacity⟩, ?_, rfl, rfl⟩
    simp only [Queue.filter, Queue.new]
    simpa using hok
  · intro α β q m hcap
    have hlen := jsMapFrom_length m q.items 0
    have hok := Queue.enqueueAll_ok_of_cap (jsMap m q.items) ⟨[], q.maxCapacity⟩
      (by simpa using withinCap_mono hcap (by simp [jsMap, hlen]))
    refine ⟨⟨jsMap m q.items, q.maxCapacity⟩, ?_, rfl, rfl⟩
    simp only [Queue.map, Queue.new]
    simpa using hok
  · intro α d p hcap
    have hlen := jsFilterFrom_length_le p d.items 0
    have hok := Deque.addRearAll_ok_of_cap (jsFilter p d.items) ⟨[], d.maxCapacity⟩
      (by simpa using withinCap_mono hcap (by simpa [jsFilter] using hlen))
    refine ⟨⟨jsFilter p d.items, d.maxCapacity⟩, ?_, rfl, rfl⟩
    simp only [Deque.filter, Deque.new]
    simpa using hok
  · intro α β d m hcap
    have hlen := jsMapFrom_length m d.items 0
    have hok := Deque.addRearAll_ok_of_cap (jsMap m d.items) ⟨[], d.maxCapacity⟩
      (by simpa using withinCap_mono hcap (by simp [jsMap, hlen]))
    refine ⟨⟨jsMap m d.items, d.maxCapacity⟩, ?_, rfl, rfl⟩
    simp only [Deque.map, Deque.new]
    simpa using hok

/-- Witness for the amended C6 at concrete inputs: filtering for even values
and doubling values on three-element containers with capacity 5. -/
theorem claim6_filter_map_naturality_witness :
    (∃ t, Stack.filter (Stack.mk [1, 2, 3] (some 5)) (fun v _ => v % 2 == 0) = .ok t ∧
      t.toArray = jsFilter (fun v _ => v % 2 == 0) (Stack.toArray (Stack.mk [1, 2, 3] (some 5))) ∧
      t.maxCapacity = some 5) ∧
    (∃ t, Stack.map (Stack.mk [1, 2, 3] (some 5)) (fun v _ => v * 2) = .ok t ∧
      t.toArray = jsMap (fun v _ => v * 2) (Stack.toArray (Stack.mk [1, 2, 3] (some 5))) ∧
      t.maxCapacity = some 5) ∧
    (∃ t, Queue.filter (Queue.mk [1, 2, 3] (some 5)) (fun v i => v + i % 2 == 0) = .ok t ∧
      t.toArray = jsFilter (fun v i => v + i % 2 == 0) (Queue.toArray (Queue.mk [1, 2, 3] (some 5))) ∧
      t.maxCapacity = some 5) ∧
    (∃ t, Queue.map (Queue.mk [1, 2, 3] (some 5)) (fun v i => v + i) = .ok t ∧
      t.toArray = jsMap (fun v i => v + i) (Queue.toArray (Queue.mk [1, 2, 3] (some 5))) ∧
      t.maxCapacity = some 5) ∧
    (∃ t, Deque.filter (Deque.mk [1, 2, 3] (some 5)) (fun v i => v + i % 2 == 0) = .ok t ∧
      t.toArray = jsFilter (fun v i => v + i % 2 == 0) (Deque.toArray (Deque.mk [1, 2, 3] (some 5))) ∧
      t.maxCapacity = some 5) ∧
    (∃ t, Deque.map (Deque.mk [1, 2, 3] (some 5)) (fun v i => v + i) = .ok t ∧
      t.toArray = jsMap (fun v i => v + i) (Deque.toArray (Deque.mk [1, 2, 3] (some 5))) ∧
      t.maxCapacity = some 5) := by
  obtain ⟨p1, p2, p3, p4, p5, p6⟩ := claim6_filter_map_naturality
  exact ⟨p1 Nat (Stack.mk [1, 2, 3] (some 5)) (fun v _ => v % 2 == 0) (by simp [withinCap]) (fun v i j => rfl),
    p2 Nat Nat (Stack.mk [1, 2, 3] (some 5)) (fun v _ => v * 2) (by simp [withinCap]) (fun v i j => rfl),
    p3 Nat (Queue.mk [1, 2, 3] (some 5)) (fun v i => v + i % 2 == 0) (by simp [withinCap]),
    p4 Nat Nat (Queue.mk [1, 2, 3] (some 5)) (fun v i => v + i) (by simp [withinCap]),
    p5 Nat (Deque.mk [1, 2, 3] (some 5)) (fun v i => v + i % 2 == 0) (by simp [withinCap]),
    p6 Nat Nat (Deque.mk [1, 2, 3] (some 5)) (fun v i => v + i) (by simp [withinCap])⟩

theorem Deque.addRearAll_ok_items {α : Type} :
    ∀ (vs : List α) (d d' : Deque α),
      Deque.addRearAll d vs = .ok d' → d' = ⟨d.items ++ vs, d.maxCapacity⟩ := by
  intro vs
  induction vs with
  | nil =>
    intro d d' h
    simp only [Deque.addRearAll] at h
    cases h
    simp
  | cons e rest ih =>
    intro d d' h
    simp only [Deque.addRearAll] at h
    cases hp : d.addRear e with
    | ok d1 =>
      rw [hp] at h
      obtain ⟨h1, -⟩ := Deque.addRear_eq_ok hp
      have := ih d1 d' h
      subst h1 this
      simp
    | error err =>
      rw [hp] at h
      simp at h

theorem Deque.removeRear_concat {α : Type} (l : List α) (v : α) (cap : Option Nat) :
    Deque.removeRear ⟨l ++ [v], cap⟩ = .ok (some v, ⟨l, cap⟩) := by
  simp [Deque.removeRear, Deque.isEmpty, arrayPop]

theorem Deque.removeFront_cons {α : Type} (v : α) (rest : List α) (cap : Option Nat) :
    Deque.removeFront ⟨v :: rest, cap⟩ = .ok (some v, ⟨rest, cap⟩) := by
  simp [Deque.removeFront, Deque.isEmpty, arrayShift]

theorem drainRear_parallel_stack {α : Type} :
    ∀ (n : Nat) (l : List α) (cap : Option Nat),
      (Deque.drainRear ⟨l, cap⟩ n).1 = (Stack.drain ⟨l, cap⟩ n).1 ∧
        (Deque.drainRear ⟨l, cap⟩ n).2.items = (Stack.drain ⟨l, cap⟩ n).2.items := by
  intro n
  induction n with
  | zero => intro l cap; exact ⟨rfl, rfl⟩
  | succ n ih =>
    intro l cap
    rcases List.eq_nil_or_concat l with hl | ⟨ys, y, rfl⟩
    · subst hl
      simp [Deque.drainRear, Stack.drain, Deque.removeRear, Stack.pop,
        Deque.isEmpty, Stack.isEmpty]
    · simp only [List.concat_eq_append, Deque.drainRear, Stack.drain,
        Deque.removeRear_concat, Stack.pop_concat]
      obtain ⟨ih1, ih2⟩ := ih ys cap
      exact ⟨by rw [ih1], by simpa using ih2⟩

theorem drainFront_parallel_queue {α : Type} :
    ∀ (n : Nat) (l : List α) (cap : Option Nat),
      (Deque.drainFront ⟨l, cap⟩ n).1 = (Queue.drain ⟨l, cap⟩ n).1 ∧
        (Deque.drainFront ⟨l, cap⟩ n).2.items = (Queue.drain ⟨l, cap⟩ n).2.items := by
  intro n
  induction n with
  | zero => intro l cap; exact ⟨rfl, rfl⟩
  | succ n ih =>
    intro l cap
    cases l with
    | nil =>
      simp [Deque.drainFront, Queue.drain, Deque.removeFront, Queue.dequeue,
        Deque.isEmpty, Queue.isEmpty]
    | cons v rest =>
      simp only [Deque.drainFront, Queue.drain, Deque.removeFront_cons, Queue.dequeue_cons]
      obtain ⟨ih1, ih2⟩ := ih rest cap
      exact ⟨by rw [ih1], by simpa using ih2⟩

theorem addRearAll_ok_iff_pushAll_ok {α : Type} :
    ∀ (vs l : List α) (cap : Option Nat),
      (∃ d', Deque.addRearAll ⟨l, cap⟩ vs = .ok d') ↔
        (∃ s', Stack.pushAll ⟨l, cap⟩ vs = .ok s') := by
  intro vs
  induction vs with
  | nil =>
    intro l cap
    constructor <;> (intro; exact ⟨_, rfl⟩)
  | cons e rest ih =>
    intro l cap
    have hiso : (⟨l, cap⟩ : Deque α).isFull = (⟨l, cap⟩ : Stack α).isFull := by
      cases cap <;> rfl
    cases hfd : (⟨l, cap⟩ : Deque α).isFull with
    | false =>
      have hfs : (⟨l, cap⟩ : Stack α).isFull = false := by rw [← hiso]; exact hfd
      simp only [Deque.addRearAll, Stack.pushAll, Deque.addRear_not_full hfd,
        Stack.push_not_full hfs]
      exact ih (l ++ [e]) cap
    | true =>
      have hfs : (⟨l, cap⟩ : Stack α).isFull = true := by rw [← hiso]; exact hfd
      simp [Deque.addRearAll, Stack.pushAll, Deque.addRear, Stack.push, hfd, hfs]

theorem addRearAll_ok_iff_enqueueAll_ok {α : Type} :
    ∀ (vs l : List α) (cap : Option Nat),
      (∃ d', Deque.addRearAll ⟨l, cap⟩ vs = .ok d') ↔
        (∃ q', Queue.enqueueAll ⟨l, cap⟩ vs = .ok q') := by
  intro vs
  induction vs with
  | nil =>
    intro l cap
    constructor <;> (intro; exact ⟨_, rfl⟩)
  | cons e rest ih =>
    intro l cap
    have hiso : (⟨l, cap⟩ : Deque α).isFull = (⟨l, cap⟩ : Queue α).isFull := by
      cases cap <;> rfl
    cases hfd : (⟨l, cap⟩ : Deque α).isFull with
    | false =>
      have hfs : (⟨l, cap⟩ : Queue α).isFull = false := by rw [← hiso]; exact hfd
      simp only [Deque.addRearAll, Queue.enqueueAll, Deque.addRear_not_full hfd,
        Queue.enqueue_not_full hfs]
      exact ih (l ++ [e]) cap
    | true =>
      have hfs : (⟨l, cap⟩ : Queue α).isFull = true := by rw [← hiso]; exact hfd
      simp [Deque.addRearAll, Queue.enqueueAll, Deque.addRear, Queue.enqueue, hfd, hfs]

/-- Claim C7 (Deque duality, refinement): starting from the same contents and
capacity, a Deque accepts a sequence of `addRear` inserts exactly when a
Stack accepts the same `push` sequence (resp. a Queue the same `enqueue`
sequence), and afterwards any number of `removeRear` calls returns exactly
the values the Stack's `pop` calls return (LIFO order), while any number of
`removeFront` calls returns exactly the values the Queue's `dequeue` calls
return (FIFO order) — with the remaining contents also agreeing. -/
theorem claim7_deque_duality :
    (∀ (α : Type) (items vs : List α) (cap : Option Nat),
        ((∃ d', Deque.addRearAll ⟨items, cap⟩ vs = .ok d') ↔
          (∃ s', Stack.pushAll ⟨items, cap⟩ vs = .ok s')) ∧
        (∀ (d' : Deque α) (s' : Stack α),
          Deque.addRearAll ⟨items, cap⟩ vs = .ok d' →
          Stack.pushAll ⟨items, cap⟩ vs = .ok s' →
          ∀ n, (Deque.drainRear d' n).1 = (Stack.drain s' n).1 ∧
            (Deque.drainRear d' n).2.items = (Stack.drain s' n).2.items)) ∧
    (∀ (α : Type) (items vs : List α) (cap : Option Nat),
        ((∃ d', Deque.addRearAll ⟨items, cap⟩ vs = .ok d') ↔
          (∃ q', Queue.enqueueAll ⟨items, cap⟩ vs = .ok q')) ∧
        (∀ (d' : Deque α) (q' : Queue α),
          Deque.addRearAll ⟨items, cap⟩ vs = .ok d' →
          Queue.enqueueAll ⟨items, cap⟩ vs = .ok q' →
          ∀ n, (Deque.drainFront d' n).1 = (Queue.drain q' n).1 ∧
            (Deque.drainFront d' n).2.items = (Queue.drain q' n).2.items)) := by
  constructor
  · intro α items vs cap
    refine ⟨addRearAll_ok_iff_pushAll_ok vs items cap, ?_⟩
    intro d' s' hd hs n
    have h1 := Deque.addRearAll_ok_items vs ⟨items, cap⟩ d' hd
    have h2 := Stack.pushAll_ok_items vs ⟨items, cap⟩ s' hs
    subst h1 h2
    exact drainRear_parallel_stack n (items ++ vs) cap
  · intro α items vs cap
    refine ⟨addRearAll_ok_iff_enqueueAll_ok vs items cap, ?_⟩
    intro d' q' hd hq n
    have h1 := Deque.addRearAll_ok_items vs ⟨items, cap⟩ d' hd
    have h2 := Queue.enqueueAll_ok_items vs ⟨items, cap⟩ q' hq
    subst h1 h2
    exact drainFront_parallel_queue n (items ++ vs) cap

/-- Witness for C7 at a concrete input: adding 1, 2, 3 at the rear of an
empty unbounded deque, then draining from the rear, matches the stack trace;
draining from the front matches the queue trace. -/
theorem claim7_deque_duality_witness :
    ((Deque.drainRear (Deque.mk [1, 2, 3] (none : Option Nat)) 3).1 =
        (Stack.drain (Stack.mk [1, 2, 3] (none : Option Nat)) 3).1 ∧
      (Deque.drainRear (Deque.mk [1, 2, 3] (none : Option Nat)) 3).2.items =
        (Stack.drain (Stack.mk [1, 2, 3] (none : Option Nat)) 3).2.items) ∧
    ((Deque.drainFront (Deque.mk [1, 2, 3] (none : Option Nat)) 3).1 =
        (Queue.drain (Queue.mk [1, 2, 3] (none : Option Nat)) 3).1 ∧
      (Deque.drainFront (Deque.mk [1, 2, 3] (none : Option Nat)) 3).2.items =
        (Queue.drain (Queue.mk [1, 2, 3] (none : Option Nat)) 3).2.items) := by
  obtain ⟨p1, p2⟩ := claim7_deque_duality
  exact ⟨(p1 Nat [] [1, 2, 3] none).2 (Deque.mk [1, 2, 3] none) (Stack.mk [1, 2, 3] none)
      (by rfl) (by rfl) 3,
    (p2 Nat [] [1, 2, 3] none).2 (Deque.mk [1, 2, 3] none) (Queue.mk [1, 2, 3] none)
      (by rfl) (by rfl) 3⟩

/-- Claim C10 (derived-container construction is capacity-safe): for any
container satisfying the capacity invariant (`size() ≤ maxCapacity` when
set — the invariant of claim C1), the derived containers built by
`clone()`, `filter(p)`, `map(m)` and (for Deque) `reversed()` re-insert
their elements through the capacity-checked constructor path, yet never
throw CapacityError: the derived element count never exceeds the source's
size, which fits the inherited bound. -/
theorem claim10_derived_construction_safe :
    (∀ (α : Type) (s : Stack α), withinCap s.maxCapacity s.items.length →
        (∃ t, s.clone = .ok t) ∧
        (∀ p, ∃ t, s.filter p = .ok t) ∧
        (∀ (β : Type) (m : α → Nat → β), ∃ t, s.map m = .ok t)) ∧
    (∀ (α : Type) (q : Queue α), withinCap q.maxCapacity q.items.length →
        (∃ t, q.clone = .ok t) ∧
        (∀ p, ∃ t, q.filter p = .ok t) ∧
        (∀ (β : Type) (m : α → Nat → β), ∃ t, q.map m = .ok t)) ∧
    (∀ (α : Type) (d : Deque α), withinCap d.maxCapacity d.items.length →
        (∃ t, d.clone = .ok t) ∧
        (∀ p, ∃ t, d.filter p = .ok t) ∧
        (∀ (β : Type) (m : α → Nat → β), ∃ t, d.map m = .ok t) ∧
        (∃ t, d.reversed = .ok t)) := by
  refine ⟨?_, ?_, ?_⟩
  · intro α s hcap
    refine ⟨?_, fun p => ?_, fun β m => ?_⟩
    · simp only [Stack.clone, Stack.new]
      exact ⟨_, Stack.pushAll_ok_of_cap s.items ⟨[], s.maxCapacity⟩ (by simpa using hcap)⟩
    · simp only [Stack.filter, Stack.new]
      exact ⟨_, Stack.pushAll_ok_of_cap (jsFilter p s.items) ⟨[], s.maxCapacity⟩
        (by simpa using withinCap_mono hcap (by simpa [jsFilter] using jsFilterFrom_length_le p s.items 0))⟩
    · simp only [Stack.map, Stack.new]
      exact ⟨_, Stack.pushAll_ok_of_cap (jsMap m s.items) ⟨[], s.maxCapacity⟩
        (by simpa using withinCap_mono hcap (by simp [jsMap, jsMapFrom_length]))⟩
  · intro α q hcap
    refine ⟨?_, fun p => ?_, fun β m => ?_⟩
    · simp only [Queue.clone, Queue.new]
      exact ⟨_, Queue.enqueueAll_ok_of_cap q.items ⟨[], q.maxCapacity⟩ (by simpa using hcap)⟩
    · simp only [Queue.filter, Queue.new]
      exact ⟨_, Queue.enqueueAll_ok_of_cap (jsFilter p q.items) ⟨[], q.maxCapacity⟩
        (by simpa using withinCap_mono hcap (by simpa [jsFilter] using jsFilterFrom_length_le p q.items 0))⟩
    · simp only [Queue.map, Queue.new]
      exact ⟨_, Queue.enqueueAll_ok_of_cap (jsMap m q.items) ⟨[], q.maxCapacity⟩
        (by simpa using withinCap_mono hcap (by simp [jsMap, jsMapFrom_length]))⟩
  · intro α d hcap
    refine ⟨?_, fun p => ?_, fun β m => ?_, ?_⟩
    · simp only [Deque.clone, Deque.new]
      exact ⟨_, Deque.addRearAll_ok_of_cap d.items ⟨[], d.maxCapacity⟩ (by simpa using hcap)⟩
    · simp only [Deque.filter, Deque.new]
      exact ⟨_, Deque.addRearAll_ok_of_cap (jsFilter p d.items) ⟨[], d.maxCapacity⟩
        (by simpa using withinCap_mono hcap (by simpa [jsFilter] using jsFilterFrom_length_le p d.items 0))⟩
    · simp only [Deque.map, Deque.new]
      exact ⟨_, Deque.addRearAll_ok_of_cap (jsMap m d.items) ⟨[], d.maxCapacity⟩
        (by simpa using withinCap_mono hcap (by simp [jsMap, jsMapFrom_length]))⟩
    · simp only [Deque.reversed, Deque.new]
      exact ⟨_, Deque.addRearAll_ok_of_cap d.items.reverse ⟨[], d.maxCapacity⟩
        (by simpa using withinCap_mono hcap (by simp))⟩

/-- Witness for C10 at concrete inputs: all derived constructions succeed on
full capacity-3 containers. -/
theorem claim10_derived_construction_safe_witness :
    ((∃ t, Stack.clone (Stack.mk [1, 2, 3] (some 3)) = .ok t) ∧
      (∀ p, ∃ t, Stack.filter (Stack.mk [1, 2, 3] (some 3)) p = .ok t) ∧
      (∀ (β : Type) (m : Nat → Nat → β), ∃ t, Stack.map (Stack.mk [1, 2, 3] (some 3)) m = .ok t)) ∧
    ((∃ t, Queue.clone (Queue.mk [1, 2, 3] (some 3)) = .ok t) ∧
      (∀ p, ∃ t, Queue.filter (Queue.mk [1, 2, 3] (some 3)) p = .ok t) ∧
      (∀ (β : Type) (m : Nat → Nat → β), ∃ t, Queue.map (Queue.mk [1, 2, 3] (some 3)) m = .ok t)) ∧
    ((∃ t, Deque.clone (Deque.mk [1, 2, 3] (some 3)) = .ok t) ∧
      (∀ p, ∃ t, Deque.filter (Deque.mk [1, 2, 3] (some 3)) p = .ok t) ∧
      (∀ (β : Type) (m : Nat → Nat → β), ∃ t, Deque.map (Deque.mk [1, 2, 3] (some 3)) m = .ok t) ∧
      (∃ t, Deque.reversed (Deque.mk [1, 2, 3] (some 3)) = .ok t)) := by
  obtain ⟨p1, p2, p3⟩ := claim10_derived_construction_safe
  exact ⟨p1 Nat (Stack.mk [1, 2, 3] (some 3)) (by simp [withinCap]),
    p2 Nat (Queue.mk [1, 2, 3] (some 3)) (by simp [withinCap]),
    p3 Nat (Deque.mk [1, 2, 3] (some 3)) (by simp [withinCap])⟩

theorem lowerBoundLoop_spec {α : Type} (compareFn : α → α → Int) (array : List α) (target : α)
    (fromIndex toIndex : Nat) (hto : toIndex ≤ array.length)
    (mono : ∀ i j x y, fromIndex ≤ i → i ≤ j → j < toIndex →
      array[i]? = some x → array[j]? = some y →
      0 ≤ compareFn x target → 0 ≤ compareFn y target) :
    ∀ (n left right : Nat), right - left ≤ n → fromIndex ≤ left → left ≤ right →
      right ≤ toIndex →
      ∃ L, lowerBoundLoop compareFn array target left right = some L ∧
        left ≤ L ∧ L ≤ right ∧
        (∀ i x, left ≤ i → i < L → array[i]? = some x → compareFn x target < 0) ∧
        (∀ i x, L ≤ i → i < right → array[i]? = some x → 0 ≤ compareFn x target) := by
  intro n
  induction n with
  | zero =>
    intro left right hn hfrom hlr hrt
    have heq : left = right := by omega
    subst heq
    refine ⟨left, by rw [lowerBoundLoop, if_neg (by omega)], le_refl _, le_refl _, ?_, ?_⟩
    · intro i x h1 h2 _
      omega
    · intro i x h1 h2 _
      omega
  | succ n ih =>
    intro left right hn hfrom hlr hrt
    by_cases hlt : left < right
    · have hmidlt : left + (right - left) / 2 < right := by omega
      have hmidlen : left + (right - left) / 2 < array.length := by omega
      have harr : array[left + (right - left) / 2]? =
          some (array[left + (right - left) / 2]) := List.getElem?_eq_getElem hmidlen
      rw [lowerBoundLoop, if_pos hlt]
      simp only [harr]
      by_cases hcmp : compareFn (array[left + (right - left) / 2]) target < 0
      · rw [if_pos hcmp]
        obtain ⟨L, hL, h1, h2, h3, h4⟩ :=
          ih (left + (right - left) / 2 + 1) right (by omega) (by omega) (by omega) hrt
        refine ⟨L, hL, by omega, h2, ?_, h4⟩
        intro i x hi1 hi2 hx
        by_cases him : i ≤ left + (right - left) / 2
        · by_contra hpos
          have h0x : 0 ≤ compareFn x target := by omega
          have := mono i (left + (right - left) / 2) x _ (by omega) him (by omega) hx harr h0x
          omega
        · exact h3 i x (by omega) hi2 hx
      · rw [if_neg hcmp]
        obtain ⟨L, hL, h1, h2, h3, h4⟩ :=
          ih left (left + (right - left) / 2) (by omega) hfrom (by omega) (by omega)
        refine ⟨L, hL, h1, by omega, h3, ?_⟩
        intro i x hi1 hi2 hx
        by_cases him : i < left + (right - left) / 2
        · exact h4 i x hi1 him hx
        · have h0m : 0 ≤ compareFn (array[left + (right - left) / 2]) target := by omega
          exact mono (left + (right - left) / 2) i _ x (by omega) (by omega) (by omega) harr hx h0m
    · have heq : left = right := by omega
      subst heq
      refine ⟨left, by rw [lowerBoundLoop, if_neg (by omega)], le_refl _, le_refl _, ?_, ?_⟩
      · intro i x h1 h2 _
        omega
      · intro i x h1 h2 _
        omega

theorem upperBoundLoop_spec {α : Type} (compareFn : α → α → Int) (array : List α) (target : α)
    (fromIndex toIndex : Nat) (hto : toIndex ≤ array.length)
    (mono : ∀ i j x y, fromIndex ≤ i → i ≤ j → j < toIndex →
      array[i]? = some x → array[j]? = some y →
      0 < compareFn x target → 0 < compareFn y target) :
    ∀ (n left right : Nat), right - left ≤ n → fromIndex ≤ left → left ≤ right →
      right ≤ toIndex →
      ∃ U, upperBoundLoop compareFn array target left right = some U ∧
        left ≤ U ∧ U ≤ right ∧
        (∀ i x, left ≤ i → i < U → array[i]? = some x → compareFn x target ≤ 0) ∧
        (∀ i x, U ≤ i → i < right → array[i]? = some x → 0 < compareFn x target) := by
  intro n
  induction n with
  | zero =>
    intro left right hn hfrom hlr hrt
    have heq : left = right := by omega
    subst heq
    refine ⟨left, by rw [upperBoundLoop, if_neg (by omega)], le_refl _, le_refl _, ?_, ?_⟩
    · intro i x h1 h2 _
      omega
    · intro i x h1 h2 _
      omega
  | succ n ih =>
    intro left right hn hfrom hlr hrt
    by_cases hlt : left < right
    · have hmidlt : left + (right - left) / 2 < right := by omega
      have hmidlen : left + (right - left) / 2 < array.length := by omega
      have harr : array[left + (right - left) / 2]? =
          some (array[left + (right - left) / 2]) := List.getElem?_eq_getElem hmidlen
      rw [upperBoundLoop, if_pos hlt]
      simp only [harr]
      by_cases hcmp : compareFn (array[left + (right - left) / 2]) target ≤ 0
      · rw [if_pos hcmp]
        obtain ⟨U, hU, h1, h2, h3, h4⟩ :=
          ih (left + (right - left) / 2 + 1) right (by omega) (by omega) (by omega) hrt
        refine ⟨U, hU, by omega, h2, ?_, h4⟩
        intro i x hi1 hi2 hx
        by_cases him : i ≤ left + (right - left) / 2
        · by_contra hpos
          have h0x : 0 < compareFn x target := by omega
          have := mono i (left + (right - left) / 2) x _ (by omega) him (by omega) hx harr h0x
          omega
        · exact h3 i x (by omega) hi2 hx
      · rw [if_neg hcmp]
        obtain ⟨U, hU, h1, h2, h3, h4⟩ :=
          ih left (left + (right - left) / 2) (by omega) hfrom (by omega) (by omega)
        refine ⟨U, hU, h1, by omega, h3, ?_⟩
        intro i x hi1 hi2 hx
        by_cases him : i < left + (right - left) / 2
        · exact h4 i x hi1 him hx
        · have h0m : 0 < compareFn (array[left + (right - left) / 2]) target := by omega
          exact mono (left + (right - left) / 2) i _ x (by omega) (by omega) (by omega) harr hx h0m
    · have heq : left = right := by omega
      subst heq
      refine ⟨left, by rw [upperBoundLoop, if_neg (by omega)], le_refl _, le_refl _, ?_, ?_⟩
      · intro i x h1 h2 _
        omega
      · intro i x h1 h2 _
        omega

theorem defaultComparator_nonneg_iff (a b : Int) : 0 ≤ defaultComparator a b ↔ b ≤ a := by
  unfold defaultComparator
  split_ifs <;> constructor <;> intro h <;> first | exact h.elim | omega

theorem defaultComparator_pos_iff (a b : Int) : 0 < defaultComparator a b ↔ b < a := by
  unfold defaultComparator
  split_ifs <;> constructor <;> intro h <;> first | exact h.elim | omega

theorem defaultComparator_neg_iff (a b : Int) : defaultComparator a b < 0 ↔ a < b := by
  unfold defaultComparator
  split_ifs <;> constructor <;> intro h <;> first | exact h.elim | omega

theorem defaultComparator_nonpos_iff (a b : Int) : defaultComparator a b ≤ 0 ↔ a ≤ b := by
  unfold defaultComparator
  split_ifs <;> constructor <;> intro h <;> first | exact h.elim | omega

theorem defaultComparator_eq_zero_iff (a b : Int) : defaultComparator a b = 0 ↔ a = b := by
  unfold defaultComparator
  split_ifs <;> constructor <;> intro h <;> first | exact h.elim | omega

/-- In a list sorted by `≤`, indexed reads are monotone. -/
theorem sorted_getElem?_mono {l : List Int} (hs : l.Sorted (· ≤ ·)) :
    ∀ (i j : Nat) (x y : Int), i ≤ j → l[i]? = some x → l[j]? = some y → x ≤ y := by
  intro i j x y hij hx hy
  rw [List.getElem?_eq_some] at hx hy
  obtain ⟨hi, rfl⟩ := hx
  obtain ⟨hj, rfl⟩ := hy
  rcases Nat.lt_or_ge i j with h | h
  · exact List.pairwise_iff_getElem.mp hs i j hi hj h
  · have heq : i = j := by omega
    subst heq
    exact le_refl _

/-- Claim C8 (lowerBound/upperBound postcondition): over any searched range
`[fromIndex, toIndex)` that is valid for the array, and any comparator for
which the array is sorted (expressed as monotonicity of the sign of
`compareFn(S[i], v)` over the range), `lowerBound` returns the least index
whose element compares `≥ v` (the range's end if none) and `upperBound` the
least index whose element compares `> v`: every earlier index compares
`< v` (resp. `≤ v`) and every index from the result on compares `≥ v`
(resp. `> v`) — which is exactly the boundary form
`S[L-1] < v ≤ S[L]` and `S[U-1] ≤ v < S[U]` with out-of-range comparisons
vacuous. -/
theorem claim8_lower_upper_bound :
    ∀ (α : Type) (compareFn : α → α → Int) (array : List α) (target : α)
      (fromIndex toIndex : Nat),
      fromIndex ≤ toIndex → toIndex ≤ array.length →
      (∀ i j x y, fromIndex ≤ i → i ≤ j → j < toIndex →
        array[i]? = some x → array[j]? = some y →
        0 ≤ compareFn x target → 0 ≤ compareFn y target) →
      (∀ i j x y, fromIndex ≤ i → i ≤ j → j < toIndex →
        array[i]? = some x → array[j]? = some y →
        0 < compareFn x target → 0 < compareFn y target) →
      (∃ L, lowerBound compareFn array target fromIndex toIndex = some L ∧
        fromIndex ≤ L ∧ L ≤ toIndex ∧
        (∀ i x, fromIndex ≤ i → i < L → array[i]? = some x → compareFn x target < 0) ∧
        (∀ i x, L ≤ i → i < toIndex → array[i]? = some x → 0 ≤ compareFn x target)) ∧
      (∃ U, upperBound compareFn array target fromIndex toIndex = some U ∧
        fromIndex ≤ U ∧ U ≤ toIndex ∧
        (∀ i x, fromIndex ≤ i → i < U → array[i]? = some x → compareFn x target ≤ 0) ∧
        (∀ i x, U ≤ i → i < toIndex → array[i]? = some x → 0 < compareFn x target)) := by
  intro α compareFn array target fromIndex toIndex hft hta monoLe monoLt
  constructor
  · obtain ⟨L, hL, h1, h2, h3, h4⟩ :=
      lowerBoundLoop_spec compareFn array target fromIndex toIndex hta monoLe
        toIndex fromIndex toIndex (by omega) (le_refl _) hft (le_refl _)
    exact ⟨L, by simpa [lowerBound] using hL, h1, h2, h3, h4⟩
  · obtain ⟨U, hU, h1, h2, h3, h4⟩ :=
      upperBoundLoop_spec compareFn array target fromIndex toIndex hta monoLt
        toIndex fromIndex toIndex (by omega) (le_refl _) hft (le_refl _)
    exact ⟨U, by simpa [upperBound] using hU, h1, h2, h3, h4⟩

/-- Witness for C8 at the concrete input `[1, 3, 5, 7, 9]` with target 5 and
default comparator: `lowerBound = 2` (first element `≥ 5`), `upperBound = 3`
(first element `> 5`), and the boundary properties hold. -/
theorem claim8_lower_upper_bound_witness :
    lowerBound defaultComparator [1, 3, 5, 7, 9] 5 0 5 = some 2 ∧
    upperBound defaultComparator [1, 3, 5, 7, 9] 5 0 5 = some 3 ∧
    (∃ L, lowerBound defaultComparator [1, 3, 5, 7, 9] 5 0 5 = some L ∧
      0 ≤ L ∧ L ≤ 5 ∧
      (∀ i x, 0 ≤ i → i < L → [(1 : Int), 3, 5, 7, 9][i]? = some x → defaultComparator x 5 < 0) ∧
      (∀ i x, L ≤ i → i < 5 → [(1 : Int), 3, 5, 7, 9][i]? = some x → 0 ≤ defaultComparator x 5)) ∧
    (∃ U, upperBound defaultComparator [1, 3, 5, 7, 9] 5 0 5 = some U ∧
      0 ≤ U ∧ U ≤ 5 ∧
      (∀ i x, 0 ≤ i → i < U → [(1 : Int), 3, 5, 7, 9][i]? = some x → defaultComparator x 5 ≤ 0) ∧
      (∀ i x, U ≤ i → i < 5 → [(1 : Int), 3, 5, 7, 9][i]? = some x → 0 < defaultComparator x 5)) := by
  have hs : ([1, 3, 5, 7, 9] : List Int).Sorted (· ≤ ·) := by decide
  have hmono := sorted_getElem?_mono hs
  have h := claim8_lower_upper_bound Int defaultComparator [1, 3, 5, 7, 9] 5 0 5
    (by omega) (by simp)
    (fun i j x y hfi hij hjt hx hy h0 =>
      (defaultComparator_nonneg_iff y 5).mpr
        (le_trans ((defaultComparator_nonneg_iff x 5).mp h0) (hmono i j x y hij hx hy)))
    (fun i j x y hfi hij hjt hx hy h0 =>
      (defaultComparator_pos_iff y 5).mpr
        (lt_of_lt_of_le ((defaultComparator_pos_iff x 5).mp h0) (hmono i j x y hij hx hy)))
  refine ⟨?_, ?_, h.1, h.2⟩
  · simp [lowerBound, lowerBoundLoop, defaultComparator]
  · simp [upperBound, upperBoundLoop, defaultComparator]

theorem binarySearchDetailedLoop_spec {α : Type} (compareFn : α → α → Int) (array : List α)
    (target : α) (fromIndex toIndex : Int)
    (h0 : 0 ≤ fromIndex) (hta : toIndex ≤ (array.length : Int))
    (noMatch : ∀ (i : Int) x, fromIndex ≤ i → i < toIndex → arrayGet array i = some x →
      compareFn x target ≠ 0)
    (mono : ∀ (i j : Int) x y, fromIndex ≤ i → i ≤ j → j < toIndex →
      arrayGet array i = some x → arrayGet array j = some y →
      0 ≤ compareFn x target → 0 ≤ compareFn y target) :
    ∀ (n : Nat) (left right : Int) (comparisons : Nat),
      (right - left + 1).toNat ≤ n → fromIndex ≤ left → right < toIndex →
      left ≤ right + 1 →
      ∃ (L : Int) (k : Nat),
        binarySearchDetailedLoop compareFn array target left right comparisons =
          some ⟨-1, false, k, L⟩ ∧
        left ≤ L ∧ L ≤ right + 1 ∧
        (∀ (i : Int) x, left ≤ i → i < L → arrayGet array i = some x →
          compareFn x target < 0) ∧
        (∀ (i : Int) x, L ≤ i → i ≤ right → arrayGet array i = some x →
          0 < compareFn x target) := by
  intro n
  induction n with
  | zero =>
    intro left right comparisons hn hfrom hrt hlr
    have hle : ¬ left ≤ right := by omega
    rw [binarySearchDetailedLoop, if_neg hle]
    refine ⟨left, comparisons, rfl, le_refl _, by omega, ?_, ?_⟩
    · intro i x h1 h2 _
      omega
    · intro i x h1 h2 _
      omega
  | succ n ih =>
    intro left right comparisons hn hfrom hrt hlr
    by_cases hle : left ≤ right
    · have hmid0 : ¬ (left + (right - left) / 2 < 0) := by omega
      have hmidlo : left ≤ left + (right - left) / 2 := by omega
      have hmidhi : left + (right - left) / 2 ≤ right := by omega
      have hmidlen : (left + (right - left) / 2).toNat < array.length := by omega
      have harr : arrayGet array (left + (right - left) / 2) =
          some (array[(left + (right - left) / 2).toNat]) := by
        unfold arrayGet
        rw [if_neg hmid0]
        exact List.getElem?_eq_getElem hmidlen
      have hne : compareFn (array[(left + (right - left) / 2).toNat]) target ≠ 0 :=
        noMatch _ _ (by omega) (by omega) harr
      rw [binarySearchDetailedLoop, if_pos hle]
      simp only [harr]
      rw [if_neg hne]
      by_cases hcmp : compareFn (array[(left + (right - left) / 2).toNat]) target < 0
      · rw [if_pos hcmp]
        obtain ⟨L, k, hL, h1, h2, h3, h4⟩ :=
          ih (left + (right - left) / 2 + 1) right (comparisons + 1)
            (by omega) (by omega) hrt (by omega)
        refine ⟨L, k, hL, by omega, h2, ?_, h4⟩
        intro i x hi1 hi2 hx
        by_cases him : i ≤ left + (right - left) / 2
        · by_contra hpos
          have h0x : 0 ≤ compareFn x target := by omega
          have := mono i (left + (right - left) / 2) x _ (by omega) him (by omega) hx harr h0x
          omega
        · exact h3 i x (by omega) hi2 hx
      · rw [if_neg hcmp]
        have hposm : 0 < compareFn (array[(left + (right - left) / 2).toNat]) target := by
          omega
        obtain ⟨L, k, hL, h1, h2, h3, h4⟩ :=
          ih left (left + (right - left) / 2 - 1) (comparisons + 1)
            (by omega) hfrom (by omega) (by omega)
        refine ⟨L, k, hL, h1, by omega, h3, ?_⟩
        intro i x hi1 hi2 hx
        by_cases him : i ≤ left + (right - left) / 2 - 1
        · exact h4 i x hi1 him hx
        · have h0i : 0 ≤ compareFn x target :=
            mono (left + (right - left) / 2) i _ x (by omega) (by omega) (by omega) harr hx
              (by omega)
          have := noMatch i x (by omega) (by omega) hx
          omega
    · rw [binarySearchDetailedLoop, if_neg hle]
      refine ⟨left, comparisons, rfl, le_refl _, by omega, ?_, ?_⟩
      · intro i x h1 h2 _
        omega
      · intro i x h1 h2 _
        omega


/-- `arrayGet` reads from a `≤`-sorted list are monotone. -/
theorem arrayGet_sorted_mono {l : List Int} (hs : l.Sorted (· ≤ ·)) :
    ∀ (i j : Int) (x y : Int), i ≤ j →
      arrayGet l i = some x → arrayGet l j = some y → x ≤ y := by
  intro i j x y hij hx hy
  unfold arrayGet at hx hy
  split at hx
  · exact absurd hx (by simp)
  · split at hy
    · exact absurd hy (by simp)
    · next hni hnj =>
      exact sorted_getElem?_mono hs i.toNat j.toNat x y (by omega) hx hy

/-- Claim C9 (insertion-point convention): over a valid searched range with
no exact match (and the range sorted for the comparator, expressed as sign
monotonicity), `binarySearchDetailed` returns `found = false`, `index = -1`,
and an `insertionPoint` L — the loop's final left bound — that is the
position where the target would be inserted to keep the sequence sorted:
every element before L compares `< v` and every element from L on compares
`> v`. -/
theorem claim9_insertion_point :
    ∀ (α : Type) (compareFn : α → α → Int) (array : List α) (target : α)
      (fromIndex toIndex : Int),
      0 ≤ fromIndex → fromIndex ≤ toIndex → toIndex ≤ (array.length : Int) →
      (∀ (i : Int) x, fromIndex ≤ i → i < toIndex → arrayGet array i = some x →
        compareFn x target ≠ 0) →
      (∀ (i j : Int) x y, fromIndex ≤ i → i ≤ j → j < toIndex →
        arrayGet array i = some x → arrayGet array j = some y →
        0 ≤ compareFn x target → 0 ≤ compareFn y target) →
      ∃ (L : Int) (k : Nat),
        binarySearchDetailed compareFn array target fromIndex toIndex =
          some ⟨-1, false, k, L⟩ ∧
        fromIndex ≤ L ∧ L ≤ toIndex ∧
        (∀ (i : Int) x, fromIndex ≤ i → i < L → arrayGet array i = some x →
          compareFn x target < 0) ∧
        (∀ (i : Int) x, L ≤ i → i < toIndex → arrayGet array i = some x →
          0 < compareFn x target) := by
  intro α compareFn array target fromIndex toIndex h0 hft hta noMatch mono
  obtain ⟨L, k, hL, h1, h2, h3, h4⟩ :=
    binarySearchDetailedLoop_spec compareFn array target fromIndex toIndex h0 hta noMatch mono
      (toIndex - fromIndex).toNat fromIndex (toIndex - 1) 0
      (by omega) (le_refl _) (by omega) (by omega)
  refine ⟨L, k, by simpa [binarySearchDetailed] using hL, h1, by omega, h3, ?_⟩
  intro i x hi1 hi2 hx
  exact h4 i x hi1 (by omega) hx

/-- Witness for C9 at the claim's concrete input: searching 6 in
`[1, 3, 5, 7, 9]` yields not-found (`index = -1`, `found = false`) with
`insertionPoint = 3`. -/
theorem claim9_insertion_point_witness :
    binarySearchDetailed defaultComparator [1, 3, 5, 7, 9] 6 0 5 =
      some ⟨-1, false, 2, 3⟩ ∧
    (∃ (L : Int) (k : Nat),
      binarySearchDetailed defaultComparator [1, 3, 5, 7, 9] 6 0 5 =
        some ⟨-1, false, k, L⟩ ∧
      0 ≤ L ∧ L ≤ 5 ∧
      (∀ (i : Int) x, 0 ≤ i → i < L → arrayGet [1, 3, 5, 7, 9] i = some x →
        defaultComparator x 6 < 0) ∧
      (∀ (i : Int) x, L ≤ i → i < 5 → arrayGet [1, 3, 5, 7, 9] i = some x →
        0 < defaultComparator x 6)) := by
  have hs : ([1, 3, 5, 7, 9] : List Int).Sorted (· ≤ ·) := by decide
  refine ⟨?_, claim9_insertion_point Int defaultComparator [1, 3, 5, 7, 9] 6 0 5
    (by omega) (by omega) (by simp) ?_ ?_⟩
  · simp [binarySearchDetailed, binarySearchDetailedLoop, arrayGet, defaultComparator]
  · intro i x h1 h2 hx
    have hmem : x ∈ ([1, 3, 5, 7, 9] : List Int) := by
      unfold arrayGet at hx
      rw [if_neg (by omega)] at hx
      exact List.getElem?_mem hx
    rw [Ne, defaultComparator_eq_zero_iff]
    simp at hmem
    rcases hmem with rfl | rfl | rfl | rfl | rfl <;> decide
  · intro i j x y hfi hij hjt hx hy hc
    exact (defaultComparator_nonneg_iff y 6).mpr
      (le_trans ((defaultComparator_nonneg_iff x 6).mp hc)
        (arrayGet_sorted_mono hs i j x y hij hx hy))


end DsAlgo
